import Mathlib

/-!
Shallow embedding of the game core of `src/src/App.js` (a 2048-style game
with an expectimax AI), together with theorems settling the specification
claims about it.  Grids are lists of rows of naturals, scores are rationals
(modelling JS floats exactly on the inputs the claims range over), and the
JS `-Infinity` sentinel of the search is modelled by `WithBot ℚ`.
-/

set_option maxRecDepth 10000

namespace App

/-- Movement directions, mirroring the `DIRECTIONS` constant of App.js.
The declaration order up, down, left, right is the insertion order, hence
the order `Object.values(DIRECTIONS)` yields inside the expectimax loop. -/
inductive Dir
| up
| down
| left
| right
deriving Repr, DecidableEq

/-- Iteration order of `Object.values(DIRECTIONS)` in App.js. -/
def dirsList : List Dir := [Dir.up, Dir.down, Dir.left, Dir.right]

/-- A grid is a list of rows of naturals; `0` is an empty cell.  Mirrors the
JavaScript array-of-arrays representation used throughout App.js. -/
abbrev Grid := List (List Nat)

/-- Read `grid[i][j]`.  Out-of-range reads default to `0`; the JS code only
indexes in range on well-formed grids. -/
def getCell (g : Grid) (i j : Nat) : Nat := (g.getD i []).getD j 0

/-- Functional version of the JS assignment `grid[i][j] = v`. -/
def setCell (g : Grid) (i j : Nat) (v : Nat) : Grid :=
  g.set i ((g.getD i []).set j v)

/-- The 4×4 shape invariant (`GRID_SIZE = 4` in App.js). -/
def WellFormed (g : Grid) : Prop := g.length = 4 ∧ ∀ r ∈ g, r.length = 4

/-- The multiset of non-zero tile values of a grid. -/
def tiles (g : Grid) : Multiset Nat :=
  ((g.flatten.filter (fun v => v ≠ 0) : List Nat) : Multiset Nat)

/-- The multiset of non-zero tile values of a single line. -/
def lineTiles (l : List Nat) : Multiset Nat :=
  ((l.filter (fun v => v ≠ 0) : List Nat) : Multiset Nat)

/-- Column `j` of the grid, read top to bottom, as extracted by the
column loops `for (i) column.push(grid[i][j])` of App.js. -/
def columnOf (g : Grid) (j : Nat) : List Nat := g.map (fun row => row.getD j 0)

/-- Result record of `processLine` / `processRow` in App.js.  The `merges`
array of source positions is presentation metadata (animation targets) and
is not modelled; no claim mentions it. -/
structure LineResult where
  row : List Nat
  changed : Bool
  score : Nat
  mergeCount : Nat
deriving Repr, DecidableEq

/-- Body of the merge for-loop shared by `processLine` and `processRow` in
App.js, acting on the already compacted (zero-free) tile list: if the
current element equals the next one they are replaced by one doubled tile,
the doubled value is added to the score, the merge counter is incremented,
and the scan index advances past both consumed elements (the `i++` in the
branch plus the loop increment), so a merge result is never reconsidered.
Returns `(newLine, score, mergeCount)`. -/
def mergePass : List Nat → List Nat × Nat × Nat
| [] => ([], 0, 0)
| [x] => ([x], 0, 0)
| x :: y :: rest =>
  if x = y then
    let r := mergePass rest
    (x * 2 :: r.1, x * 2 + r.2.1, r.2.2 + 1)
  else
    let r := mergePass (y :: rest)
    (x :: r.1, r.2.1, r.2.2)

/-- `processLine` of App.js (the active declaration, used by the second
`simulateMove`, by `evaluateBaseMove` and by `isMoveValid`): filter out the
zeros, run the merge pass, pad with zeros on the right up to the input
length.  `changed` is initialised to `nonZero.length !== line.length` and
set to true whenever a merge occurs. -/
def processLine (line : List Nat) : LineResult :=
  let nonZero := line.filter (fun v => v ≠ 0)
  let m := mergePass nonZero
  { row := m.1 ++ List.replicate (line.length - m.1.length) 0
    changed := decide (nonZero.length ≠ line.length) || decide (m.2.2 ≠ 0)
    score := m.2.1
    mergeCount := m.2.2 }

/-- `processRow` of App.js.  Its body is the same filter / merge-pass / pad
algorithm as `processLine` (the two source functions are line-for-line the
same computation on the fields a claim can see). -/
def processRow (line : List Nat) : LineResult :=
  let nonZeroTiles := line.filter (fun v => v ≠ 0)
  let m := mergePass nonZeroTiles
  { row := m.1 ++ List.replicate (line.length - m.1.length) 0
    changed := decide (nonZeroTiles.length ≠ line.length) || decide (m.2.2 ≠ 0)
    score := m.2.1
    mergeCount := m.2.2 }

/-- The later `simulateMove` declaration of App.js (the one starting near
line 1636, built on `processLine`).  Because JavaScript hoists function
declarations and a later declaration of the same name overwrites an earlier
one in the same scope, this is the binding every caller in the component
(expectimax, isMoveValid, tryAlternativeMoves, getBestMove) actually gets.
Note what the source writes back: for UP and DOWN nothing is written back
at all; for LEFT it writes `grid[row] = line` where `line` is the untouched
copy `[...grid[row]]` (processLine returns a fresh array and does not
mutate its argument); for RIGHT it writes `line.reverse()` where `line`
was `[...grid[row]].reverse()`.  So the cell values of the grid are left
exactly as they were; only the `moved` flag is computed.  Returns the
post-call grid and the `moved` flag. -/
def simulateMove (g : Grid) (d : Dir) : Grid × Bool :=
  match d with
  | Dir.up =>
    (g, (List.range 4).any (fun col => (processLine (columnOf g col)).changed))
  | Dir.right =>
    (g.map (fun row => row.reverse.reverse),
     g.any (fun row => (processLine row.reverse).changed))
  | Dir.down =>
    (g, (List.range 4).any (fun col => (processLine (columnOf g col).reverse).changed))
  | Dir.left =>
    (g.map (fun row => row),
     g.any (fun row => (processLine row).changed))

/-- Write the list `col` into column `j` of the grid, mirroring the
write-back loops `for (i) grid[i][j] = processedColumn[i]` of the first
`simulateMove` declaration. -/
def setColumn (g : Grid) (j : Nat) (col : List Nat) : Grid :=
  (List.range 4).foldl (fun acc i => setCell acc i j (col.getD i 0)) g

/-- The earlier `simulateMove` declaration of App.js (near line 1227, built
on `processRow`).  It really applies the move to the grid it is given, but
it is shadowed by the later declaration above and therefore never runs.  It
is embedded because it is the line-based move application the repository
contains, and the expectimax recursion was evidently written against its
behaviour. -/
def simulateMoveShadowed (g : Grid) (d : Dir) : Grid × Bool :=
  match d with
  | Dir.left =>
    (g.map (fun row => (processRow row).row),
     g.any (fun row => (processRow row).changed))
  | Dir.right =>
    (g.map (fun row => ((processRow row.reverse).row).reverse),
     g.any (fun row => (processRow row.reverse).changed))
  | Dir.up =>
    ((List.range 4).foldl (fun acc col =>
        let r := processRow (columnOf g col)
        if r.changed then setColumn acc col r.row else acc) g,
     (List.range 4).any (fun col => (processRow (columnOf g col)).changed))
  | Dir.down =>
    ((List.range 4).foldl (fun acc col =>
        let r := processRow (columnOf g col).reverse
        if r.changed then setColumn acc col r.row.reverse else acc) g,
     (List.range 4).any (fun col => (processRow (columnOf g col).reverse).changed))

/-- `isMoveValid` of App.js: deep-copy the grid and ask the (active)
`simulateMove` whether the move counts as a change. -/
def isMoveValid (g : Grid) (d : Dir) : Bool := (simulateMove g d).2

/-- `checkGameOver` of App.js, including its duplicated blocks: an
early-return on `grid.some(row => row.some(cell => cell === 0))`, a second
index-based empty-cell scan, an adjacent-equal scan written with
`GRID_SIZE - 1`, and a second adjacent-equal scan written with the literal
`3`.  Returns true only when all four scans find nothing. -/
def checkGameOver (g : Grid) : Bool :=
  if g.any (fun row => row.any (fun cell => cell = 0)) then false
  else if (List.range 4).any (fun i => (List.range 4).any (fun j =>
      getCell g i j = 0)) then false
  else if (List.range 4).any (fun i => (List.range 4).any (fun j =>
      (decide (j < 3) && decide (getCell g i j = getCell g i (j + 1))) ||
      (decide (i < 3) && decide (getCell g i j = getCell g (i + 1) j)))) then false
  else if (List.range 4).any (fun i => (List.range 4).any (fun j =>
      (decide (j < 3) && decide (getCell g i (j + 1) = getCell g i j)) ||
      (decide (i < 3) && decide (getCell g (i + 1) j = getCell g i j)))) then false
  else true

/-- The empty-cell enumeration loop `for (i) for (j) if (grid[i][j] === 0)
push({i, j})` that appears both in `addRandomTile` and in the CHANCE branch
of `expectimax`. -/
def emptyCellsList (g : Grid) : List (Nat × Nat) :=
  (List.range 4).flatMap (fun i =>
    (List.range 4).filterMap (fun j =>
      if getCell g i j = 0 then some (i, j) else none))

/-- `addRandomTile` of App.js.  The two calls to `Math.random()` are passed
in as parameters: `pick` selects the empty cell (the source computes
`Math.floor(Math.random() * emptyCells.length)`, a uniform index, modelled
as `pick % length`) and `isFour` tells whether the 10% branch was taken
(`Math.random() < 0.9` gives a 2, otherwise a 4).  When there is no empty
cell the grid is returned unchanged, as in the source.  Sound and animation
side effects are presentation glue and are not modelled. -/
def addRandomTile (g : Grid) (pick : Nat) (isFour : Bool) : Grid :=
  let emptyCells := emptyCellsList g
  if emptyCells.isEmpty then g
  else
    let c := emptyCells.getD (pick % emptyCells.length) (0, 0)
    setCell g c.1 c.2 (if isFour then 4 else 2)

/-- Fuel-driven base-2 logarithm used to model `Math.log2`.  On the values
the heuristics ever see in play — powers of two — it agrees exactly with
`Math.log2`; on other inputs `Math.log2` is irrational and any total
rational model is a choice, which no claim depends on. -/
def log2Aux : Nat → Nat → Nat
| 0, _ => 0
| fuel + 1, n => if n ≤ 1 then 0 else log2Aux fuel (n / 2) + 1

/-- Floor base-2 logarithm (exact on powers of two), as a rational. -/
def log2Q (n : Nat) : ℚ := (log2Aux n n : ℚ)

/-- The `HEURISTIC_WEIGHTS` constant of App.js. -/
structure HeuristicWeights where
  emptyCells : ℚ
  smoothness : ℚ
  monotonicity : ℚ
  maxValue : ℚ
  positionScore : ℚ
  potentialMerges : ℚ
  cornerMax : ℚ
  trappedPenalty : ℚ

/-- Values of `HEURISTIC_WEIGHTS` in App.js (0.1 is modelled as 1/10). -/
def HEURISTIC_WEIGHTS : HeuristicWeights :=
  { emptyCells := 10
    smoothness := 1 / 10
    monotonicity := 1
    maxValue := 1
    positionScore := 2
    potentialMerges := 5
    cornerMax := 20
    trappedPenalty := 10 }

/-- `countEmptyCells` of App.js. -/
def countEmptyCells (g : Grid) : Nat :=
  (List.range 4).foldl (fun c i =>
    (List.range 4).foldl (fun c j =>
      if getCell g i j = 0 then c + 1 else c) c) 0

/-- The nearest non-zero cell strictly after index `j` along the given list
of cells, mirroring the `for (k) ... break` searches of
`calculateSmoothness`. -/
def firstNonZeroAfter (cells : List Nat) (j : Nat) : Option Nat :=
  ((List.range 4).filter (fun k => j < k)).map (fun k => cells.getD k 0)
    |>.find? (fun v => v ≠ 0)

/-- `calculateSmoothness` of App.js: for every non-zero cell, subtract the
absolute log2 difference to the nearest non-zero cell to its right and to
the nearest non-zero cell below it (skipping zeros; contributing nothing
when the search finds no non-zero cell). -/
def calculateSmoothness (g : Grid) : ℚ :=
  (List.range 4).foldl (fun s i =>
    (List.range 4).foldl (fun s j =>
      if getCell g i j ≠ 0 then
        let value := log2Q (getCell g i j)
        let right := match firstNonZeroAfter (g.getD i []) j with
          | some w => |value - log2Q w|
          | none => 0
        let below := match firstNonZeroAfter (columnOf g j) i with
          | some w => |value - log2Q w|
          | none => 0
        s - right - below
      else s) s) 0

/-- Per-line accumulator of `calculateMonotonicity`: scan positions 1..3,
adding positive log2 steps to `increasing` and negative ones to
`decreasing` (empty cells count as log2 value 0), then keep the larger of
the two accumulators. -/
def monotonicityLine (cells : List Nat) : ℚ :=
  let step := fun (p : ℚ × ℚ) (j : Nat) =>
    let current := if cells.getD j 0 ≠ 0 then log2Q (cells.getD j 0) else 0
    let previous := if cells.getD (j - 1) 0 ≠ 0 then log2Q (cells.getD (j - 1) 0) else 0
    if current > previous then (p.1 + (current - previous), p.2)
    else if previous > current then (p.1, p.2 + (previous - current))
    else p
  let p := [1, 2, 3].foldl step (0, 0)
  max p.1 p.2

/-- `calculateMonotonicity` of App.js: sum of the per-line accumulator over
the four rows and the four columns. -/
def calculateMonotonicity (g : Grid) : ℚ :=
  ((List.range 4).map (fun i => monotonicityLine (g.getD i []))).sum +
  ((List.range 4).map (fun j => monotonicityLine (columnOf g j))).sum

/-- `getMaxValue` of App.js. -/
def getMaxValue (g : Grid) : Nat :=
  (List.range 4).foldl (fun m i =>
    (List.range 4).foldl (fun m j => max m (getCell g i j)) m) 0

/-- The `positionWeights` snake matrix of `calculatePositionScore`. -/
def positionWeights : Grid :=
  [[15, 14, 13, 12], [8, 9, 10, 11], [7, 6, 5, 4], [0, 1, 2, 3]]

/-- `calculatePositionScore` of App.js. -/
def calculatePositionScore (g : Grid) : ℚ :=
  (List.range 4).foldl (fun s i =>
    (List.range 4).foldl (fun s j =>
      if getCell g i j ≠ 0 then
        s + (getCell positionWeights i j : ℚ) * log2Q (getCell g i j)
      else s) s) 0

/-- `countPotentialMerges` of App.js: equal non-zero horizontal neighbours,
then equal non-zero vertical neighbours. -/
def countPotentialMerges (g : Grid) : Nat :=
  (List.range 4).foldl (fun m i =>
    (List.range 3).foldl (fun m j =>
      if getCell g i j ≠ 0 ∧ getCell g i j = getCell g i (j + 1) then m + 1 else m) m) 0 +
  (List.range 4).foldl (fun m j =>
    (List.range 3).foldl (fun m i =>
      if getCell g i j ≠ 0 ∧ getCell g i j = getCell g (i + 1) j then m + 1 else m) m) 0

/-- `isMaxValueInCorner(grid, maxValue)` of App.js.  The second parameter
is an `Option` because `evaluateBaseMove` calls the function with a single
argument, leaving `maxValue` undefined; a JS `===` comparison of a number
against `undefined` is always false, so that call always returns false. -/
def isMaxValueInCorner (g : Grid) (maxValue : Option Nat) : Bool :=
  match maxValue with
  | none => false
  | some v =>
    decide (getCell g 0 0 = v) || decide (getCell g 0 3 = v) ||
    decide (getCell g 3 0 = v) || decide (getCell g 3 3 = v)

/-- The neighbour offsets array of `calculateTrappedPenalty`. -/
def trappedDirections : List (Int × Int) := [(-1, 0), (1, 0), (0, -1), (0, 1)]

/-- `calculateTrappedPenalty` of App.js: a non-zero cell is trapped when no
in-bounds orthogonal neighbour is empty or equal to it; each trapped cell
adds `log2(value)` to the penalty. -/
def calculateTrappedPenalty (g : Grid) : ℚ :=
  (List.range 4).foldl (fun p i =>
    (List.range 4).foldl (fun p j =>
      if getCell g i j ≠ 0 then
        let value := getCell g i j
        let isTrapped := ¬ trappedDirections.any (fun d =>
          let ni := (i : Int) + d.1
          let nj := (j : Int) + d.2
          decide (0 ≤ ni) && decide (ni < 4) && decide (0 ≤ nj) && decide (nj < 4) &&
          (decide (getCell g ni.toNat nj.toNat = 0) ||
           decide (getCell g ni.toNat nj.toNat = value)))
        if isTrapped then p + log2Q value else p
      else p) p) 0

/-- The pure weighted-sum evaluation computed inside `evaluateGrid` of
App.js on a cache miss (the `evaluation` constant). -/
def evaluationOf (g : Grid) : ℚ :=
  HEURISTIC_WEIGHTS.emptyCells * (countEmptyCells g : ℚ) +
  HEURISTIC_WEIGHTS.smoothness * calculateSmoothness g +
  HEURISTIC_WEIGHTS.monotonicity * calculateMonotonicity g +
  HEURISTIC_WEIGHTS.maxValue * (getMaxValue g : ℚ) +
  HEURISTIC_WEIGHTS.positionScore * calculatePositionScore g +
  HEURISTIC_WEIGHTS.potentialMerges * (countPotentialMerges g : ℚ) +
  HEURISTIC_WEIGHTS.cornerMax *
    (if isMaxValueInCorner g (some (getMaxValue g)) then 1 else 0) -
  HEURISTIC_WEIGHTS.trappedPenalty * calculateTrappedPenalty g

/-- The `evaluationCache` Map of App.js, keyed by `JSON.stringify(grid)`;
for grids of number arrays two JSON keys coincide exactly when the grids
are structurally equal, so the key is modelled by the grid itself. -/
abbrev EvalCache := List (Grid × ℚ)

/-- Cache lookup, modelling `evaluationCache.has / get`. -/
def cacheLookup (c : EvalCache) (g : Grid) : Option ℚ :=
  (c.find? (fun p => p.1 = g)).map (fun p => p.2)

/-- `evaluateGrid` of App.js: return the cached value when the grid key is
present, otherwise compute the weighted evaluation and store it.  The
mutable module-level cache is threaded explicitly. -/
def evaluateGrid (c : EvalCache) (g : Grid) : ℚ × EvalCache :=
  match cacheLookup c g with
  | some v => (v, c)
  | none => (evaluationOf g, (g, evaluationOf g) :: c)

/-- Scalar multiplication by a (non-zero) weight on search scores,
modelling the JS products `0.9 * score` and `0.1 * score`: a finite score
is scaled, `-Infinity` (the bottom element) stays `-Infinity`. -/
def smulB (q : ℚ) (x : WithBot ℚ) : WithBot ℚ := WithBot.map (fun v => q * v) x

/-- `expectimax` of App.js.  Scores live in `WithBot ℚ`: `⊥` models the
`-Infinity` a MAX node starts from (and returns when no direction moves);
JS float arithmetic on the weights 0.9, 0.1 and the division by the
empty-cell count is modelled in `ℚ`.  A MAX node deep-copies the grid,
calls the (active, non-mutating) `simulateMove` on the copy and recurses on
that copy; a CHANCE node accumulates `0.9*score2 + 0.1*score4` over the
empty cells while counting `possibleSpawns`, then divides by
`emptyCells.length` when `possibleSpawns > 0` and yields 0 otherwise. -/
def expectimax : Grid → Nat → Bool → WithBot ℚ × Option Dir
| g, 0, _ => (((evaluationOf g : ℚ) : WithBot ℚ), none)
| g, depth + 1, isPlayerMove =>
  if checkGameOver g then (((evaluationOf g : ℚ) : WithBot ℚ), none)
  else if isPlayerMove then
    dirsList.foldl (fun best direction =>
      let newGrid := simulateMove g direction
      if newGrid.2 then
        let result := expectimax newGrid.1 depth false
        if result.1 > best.1 then (result.1, some direction) else best
      else best) ((⊥ : WithBot ℚ), (none : Option Dir))
  else
    let emptyCells := emptyCellsList g
    let acc := emptyCells.foldl (fun (p : WithBot ℚ × Nat) cell =>
      (p.1 + smulB (9 / 10) (expectimax (setCell g cell.1 cell.2 2) depth true).1
           + smulB (1 / 10) (expectimax (setCell g cell.1 cell.2 4) depth true).1,
       p.2 + 1)) ((0 : WithBot ℚ), 0)
    (if 0 < acc.2 then
       WithBot.map (fun t => t / (emptyCells.length : ℚ)) acc.1
     else ((0 : ℚ) : WithBot ℚ), none)

/-- The 90/10 value mixture a CHANCE node accumulates for one empty cell:
0.9 times the MAX score after a 2 spawns there plus 0.1 times the MAX
score after a 4 spawns there. -/
def chanceMix (g : Grid) (depth : Nat) (cell : Nat × Nat) : WithBot ℚ :=
  smulB (9 / 10) (expectimax (setCell g cell.1 cell.2 2) depth true).1 +
  smulB (1 / 10) (expectimax (setCell g cell.1 cell.2 4) depth true).1

/-- The `difficultySettings` table of App.js. -/
inductive Difficulty
| easy
| medium
| hard
| expert
deriving Repr, DecidableEq

/-- One row of `difficultySettings`. -/
structure DifficultyProfile where
  depth : Nat
  speed : Nat
  delay : Nat
deriving Repr, DecidableEq

/-- The `difficultySettings` constant of App.js. -/
def difficultySettings : Difficulty → DifficultyProfile
| Difficulty.easy => { depth := 2, speed := 300, delay := 1500 }
| Difficulty.medium => { depth := 3, speed := 200, delay := 1000 }
| Difficulty.hard => { depth := 4, speed := 150, delay := 800 }
| Difficulty.expert => { depth := 5, speed := 100, delay := 500 }

/-- `evaluateStrategicPosition` of App.js.  Its call
`calculateTrappedPenalty(grid, direction)` passes an extra argument that
the one-parameter source function ignores. -/
def evaluateStrategicPosition (g : Grid) (d : Dir) : ℚ :=
  let maxValue := g.flatten.foldl max 0
  let corner : ℚ :=
    if (d = Dir.left ∧ getCell g 0 0 = maxValue) ∨
       (d = Dir.up ∧ getCell g 0 0 = maxValue) then 50 else 0
  corner - calculateTrappedPenalty g * 20

/-- `evaluateBaseMove` of App.js.  The per-direction loops run
`processLine` on each oriented line and accumulate `result.score`, but the
write-back stores the *unprocessed* line (`column[row]` / `line`, not
`result.row`), so `testGrid` still holds the original values when the
heuristic terms are added: those terms are direction-independent.  The
`isMaxValueInCorner(testGrid)` call passes no `maxValue`, so it contributes
`false * 50 = 0`. -/
def evaluateBaseMove (g : Grid) (d : Dir) : ℚ :=
  let score : Nat := match d with
    | Dir.up => ((List.range 4).map (fun col => (processLine (columnOf g col)).score)).sum
    | Dir.right => (g.map (fun row => (processLine row.reverse).score)).sum
    | Dir.down => ((List.range 4).map (fun col => (processLine (columnOf g col).reverse).score)).sum
    | Dir.left => (g.map (fun row => (processLine row).score)).sum
  (score : ℚ) +
  (countEmptyCells g : ℚ) * 10 +
  (getMaxValue g : ℚ) * 2 +
  (if isMaxValueInCorner g none then 1 else 0) * 50 +
  calculateMonotonicity g * (3 / 2) +
  calculateSmoothness g * (1 / 2)

/-- `evaluateMove` of App.js.  `calculateBestMove` calls it with two
arguments, so `difficulty` is undefined there and the switch falls through
to the default branch; the difficulty multipliers are modelled for the
remaining callers. -/
def evaluateMove (g : Grid) (d : Dir) (difficulty : Option Difficulty) : ℚ :=
  let baseScore := evaluateBaseMove g d
  match difficulty with
  | some Difficulty.easy => baseScore * (4 / 5)
  | some Difficulty.medium => baseScore
  | some Difficulty.hard => baseScore * (6 / 5)
  | some Difficulty.expert => baseScore * (3 / 2) + evaluateStrategicPosition g d
  | none => baseScore

/-- Stable insertion of a scored direction into a descending-sorted list:
the new item goes in front of the first strictly smaller score, i.e. after
every earlier item with an equal or larger score.  Folding this over the
original list reproduces the stable descending sort that the JS
`directions.sort((a, b) => b.score - a.score)` performs. -/
def insertDesc (acc : List (Dir × ℚ)) (x : Dir × ℚ) : List (Dir × ℚ) :=
  match acc with
  | [] => [x]
  | y :: ys => if y.2 < x.2 then x :: y :: ys else y :: insertDesc ys x

/-- Stable descending sort by score (see `insertDesc`). -/
def sortByScoreDesc (l : List (Dir × ℚ)) : List (Dir × ℚ) := l.foldl insertDesc []

/-- `calculateBestMove` of App.js: score the four directions with
`evaluateMove` (passing no difficulty) in the order UP, RIGHT, DOWN, LEFT,
stable-sort by score descending, and return the first valid move, or null
when none is valid.  The function declares only `currentGrid`; the `depth`
argument its caller supplies is bound to nothing and discarded, which the
unused `depth` parameter records. -/
def calculateBestMove (currentGrid : Grid) (depth : Nat) : Option Dir :=
  let scored :=
    [(Dir.up, evaluateMove currentGrid Dir.up none),
     (Dir.right, evaluateMove currentGrid Dir.right none),
     (Dir.down, evaluateMove currentGrid Dir.down none),
     (Dir.left, evaluateMove currentGrid Dir.left none)]
  let sorted := sortByScoreDesc scored
  (sorted.find? (fun m => isMoveValid currentGrid m.1)).map (fun m => m.1)

/-- The decision step of the `makeAiMove` effect in App.js: look the
current difficulty level up in `difficultySettings` and call
`calculateBestMove(grid, depth)` with the resulting depth. -/
def makeAiMove (g : Grid) (level : Difficulty) : Option Dir :=
  calculateBestMove g (difficultySettings level).depth

/-- Mutable state of one `moveTiles` invocation in App.js: the working
grid copy `newGrid`, the `mergedTiles` set of cells already produced by a
merge this move, the `moved` flag, the `totalMergeCount` accumulator and
the score gained (App.js adds merge values onto `newScore`; only the gain
is modelled).  Animations, sounds, streaks and achievement bookkeeping are
presentation state and are not modelled. -/
structure MoveState where
  g : Grid
  merged : List (Nat × Nat)
  moved : Bool
  mergeCount : Nat
  score : Nat
deriving Repr, DecidableEq

/-- Row/column offset of one displacement step, as computed by the
`nextRow/nextCol` assignments of `processCell`. -/
def dirOffset : Dir → Int × Int
| Dir.up => (-1, 0)
| Dir.down => (1, 0)
| Dir.left => (0, -1)
| Dir.right => (0, 1)

/-- The `nextRow`/`nextCol` computation of `processCell`: one step from
`(row, col)` in the move direction, as integers. -/
def nextPos (d : Dir) (row col : Nat) : Int × Int :=
  ((row : Int) + (dirOffset d).1, (col : Int) + (dirOffset d).2)

/-- The bounds test `nextRow >= 0 && nextRow < 4 && nextCol >= 0 &&
nextCol < 4` of `processCell`. -/
def inBounds (p : Int × Int) : Prop := 0 ≤ p.1 ∧ p.1 < 4 ∧ 0 ≤ p.2 ∧ p.2 < 4

instance (p : Int × Int) : Decidable (inBounds p) := by
  unfold inBounds
  infer_instance

/-- The recursive `processCell` closure of `moveTiles` in App.js.  A
non-empty cell looks one step in the move direction: if that cell is in
bounds and empty the tile moves there and `processCell` recurses from the
new position; if it holds an equal value that was not already produced by
a merge this move, the two tiles merge (target doubled, source zeroed,
score increased by the doubled value, merge counted and the target added
to `mergedTiles`); otherwise nothing happens.  A tile can take at most 3
displacement steps on a 4×4 board, so the fuel of 8 the callers pass is
never exhausted. -/
def processCell (d : Dir) : Nat → Nat → Nat → MoveState → MoveState
| 0, _, _, s => s
| fuel + 1, row, col, s =>
  if getCell s.g row col = 0 then s
  else
    let np := nextPos d row col
    if inBounds np then
      let nr := np.1.toNat
      let nc := np.2.toNat
      if getCell s.g nr nc = 0 then
        processCell d fuel nr nc
          { s with g := setCell (setCell s.g nr nc (getCell s.g row col)) row col 0
                   moved := true }
      else if getCell s.g nr nc = getCell s.g row col ∧ (nr, nc) ∉ s.merged then
        { g := setCell (setCell s.g nr nc (getCell s.g row col * 2)) row col 0
          merged := (nr, nc) :: s.merged
          moved := true
          mergeCount := s.mergeCount + 1
          score := s.score + getCell s.g row col * 2 }
      else s
    else s

/-- Cell visiting order of the `processCell` driver loops in `moveTiles`:
for UP rows 1..3 outer (columns inner), for DOWN rows 2..0, for LEFT
columns 1..3 outer (rows inner), for RIGHT columns 2..0. -/
def traversal : Dir → List (Nat × Nat)
| Dir.up =>
  [(1, 0), (1, 1), (1, 2), (1, 3), (2, 0), (2, 1), (2, 2), (2, 3),
   (3, 0), (3, 1), (3, 2), (3, 3)]
| Dir.down =>
  [(2, 0), (2, 1), (2, 2), (2, 3), (1, 0), (1, 1), (1, 2), (1, 3),
   (0, 0), (0, 1), (0, 2), (0, 3)]
| Dir.left =>
  [(0, 1), (1, 1), (2, 1), (3, 1), (0, 2), (1, 2), (2, 2), (3, 2),
   (0, 3), (1, 3), (2, 3), (3, 3)]
| Dir.right =>
  [(0, 2), (1, 2), (2, 2), (3, 2), (0, 1), (1, 1), (2, 1), (3, 1),
   (0, 0), (1, 0), (2, 0), (3, 0)]

/-- The grid-transforming core of `moveTiles` in App.js: deep-copy the
grid, run `processCell` over the traversal order for the direction, and
collect the final state (the source then spawns a tile, updates scores and
React state when `moved` is true, which later claims treat separately). -/
def moveTiles (g : Grid) (d : Dir) : MoveState :=
  (traversal d).foldl (fun s p => processCell d 8 p.1 p.2 s)
    { g := g, merged := [], moved := false, mergeCount := 0, score := 0 }

/-! Indexing helper lemmas. -/

theorem getD_mem {α : Type} {l : List α} {i : Nat} (d : α) (h : i < l.length) :
    l.getD i d ∈ l := by
  rw [List.getD_eq_getElem l d h]
  exact List.getElem_mem h

theorem mem_iff_getD {α : Type} {l : List α} {a : α} (d : α) :
    a ∈ l ↔ ∃ i, ∃ h : i < l.length, l.getD i d = a := by
  constructor
  · intro h
    obtain ⟨i, hi, hg⟩ := List.mem_iff_getElem.mp h
    exact ⟨i, hi, by rw [List.getD_eq_getElem l d hi]; exact hg⟩
  · rintro ⟨i, hi, rfl⟩
    exact getD_mem d hi

/-! SetCell and flatten-multiset lemmas. -/

theorem getD_set_self {α : Type} : ∀ (l : List α) (i : Nat) (a d : α),
    i < l.length → (l.set i a).getD i d = a
| [], i, a, d, h => absurd h (by simp)
| b :: t, 0, a, d, _ => rfl
| b :: t, i + 1, a, d, h =>
  getD_set_self t i a d (by simpa using h)

theorem getD_set_ne {α : Type} : ∀ (l : List α) {i k : Nat} (a d : α),
    i ≠ k → (l.set i a).getD k d = l.getD k d
| [], i, k, a, d, _ => by simp
| b :: t, 0, 0, a, d, h => absurd rfl h
| b :: t, 0, k + 1, a, d, _ => rfl
| b :: t, i + 1, 0, a, d, _ => rfl
| b :: t, i + 1, k + 1, a, d, h =>
  getD_set_ne t a d (by omega)

theorem length_setCell (g : Grid) (i j v : Nat) :
    (setCell g i j v).length = g.length := by
  simp [setCell]

theorem rowlen_setCell (g : Grid) (i j v k : Nat) :
    ((setCell g i j v).getD k []).length = (g.getD k []).length := by
  unfold setCell
  by_cases hk : i = k
  · subst hk
    by_cases hi : i < g.length
    · rw [getD_set_self g i _ [] hi]
      simp
    · rw [List.set_eq_of_length_le (by omega)]
  · rw [getD_set_ne g _ [] hk]

theorem wellFormed_setCell {g : Grid} (hW : WellFormed g) (i j v : Nat) :
    WellFormed (setCell g i j v) := by
  refine ⟨by rw [length_setCell, hW.1], ?_⟩
  intro r hr
  by_cases hi : i < g.length
  · rcases List.mem_or_eq_of_mem_set hr with hmem | rfl
    · exact hW.2 r hmem
    · rw [List.length_set]
      exact hW.2 _ (getD_mem [] hi)
  · unfold setCell at hr
    rw [List.set_eq_of_length_le (by omega)] at hr
    exact hW.2 r hr

theorem getCell_setCell_self {g : Grid} {i j : Nat} (v : Nat)
    (hi : i < g.length) (hj : j < (g.getD i []).length) :
    getCell (setCell g i j v) i j = v := by
  unfold getCell setCell
  rw [getD_set_self g i _ [] hi, getD_set_self _ j v 0 hj]

theorem getCell_setCell_ne {g : Grid} {i j i' j' : Nat} (v : Nat)
    (h : ¬(i = i' ∧ j = j')) :
    getCell (setCell g i j v) i' j' = getCell g i' j' := by
  unfold getCell setCell
  by_cases hi : i = i'
  · subst hi
    have hj : j ≠ j' := fun hj => h ⟨rfl, hj⟩
    by_cases hlen : i < g.length
    · rw [getD_set_self g i _ [] hlen, getD_set_ne _ v 0 hj]
    · rw [List.set_eq_of_length_le (by omega)]
  · rw [getD_set_ne g _ [] hi]

theorem getD_dflt {α : Type} : ∀ (l : List α) (n : Nat) (d : α),
    l.length ≤ n → l.getD n d = d
| [], _, _, _ => rfl
| _ :: t, n + 1, d, h => getD_dflt t n d (by simpa using h)

theorem getCell_ne_zero_bounds {g : Grid} {i j : Nat} (h : getCell g i j ≠ 0) :
    i < g.length ∧ j < (g.getD i []).length := by
  unfold getCell at h
  constructor
  · by_contra hi
    rw [getD_dflt g i [] (by omega)] at h
    simp at h
  · by_contra hj
    rw [getD_dflt _ j 0 (by omega)] at h
    exact h rfl

theorem getCell_mem_flatten {g : Grid} {i j : Nat}
    (hi : i < g.length) (hj : j < (g.getD i []).length) :
    getCell g i j ∈ g.flatten :=
  List.mem_flatten.mpr ⟨g.getD i [], getD_mem [] hi, getD_mem 0 hj⟩

theorem listMS_set : ∀ (l : List Nat) (i a : Nat), i < l.length →
    (↑(l.set i a) : Multiset Nat) + {l.getD i 0} = ↑l + {a}
| [], i, a, h => absurd h (by simp)
| b :: t, 0, a, _ => by
  show (↑(a :: t) : Multiset Nat) + {b} = ↑(b :: t) + {a}
  simp only [← Multiset.cons_coe]
  ext x
  simp only [Multiset.count_add, Multiset.count_cons, Multiset.count_singleton]
  by_cases hxa : x = a <;> by_cases hxb : x = b <;> simp [hxa, hxb] <;> ring
| b :: t, i + 1, a, h => by
  show (↑(b :: t.set i a) : Multiset Nat) + {t.getD i 0} = ↑(b :: t) + {a}
  simp only [← Multiset.cons_coe, Multiset.cons_add]
  rw [listMS_set t i a (by simpa using h)]

theorem flattenMS_set_row : ∀ (g : Grid) (i : Nat) (row : List Nat), i < g.length →
    (↑(g.set i row).flatten : Multiset Nat) + ↑(g.getD i []) =
      ↑g.flatten + (↑row : Multiset Nat)
| [], i, row, h => absurd h (by simp)
| r :: t, 0, row, _ => by
  show (↑(row :: t).flatten : Multiset Nat) + ↑r = ↑(r :: t).flatten + ↑row
  simp only [List.flatten_cons, ← Multiset.coe_add]
  ext x
  simp only [Multiset.count_add, ← Multiset.coe_add, Multiset.coe_count]
  omega
| r :: t, i + 1, row, h => by
  show (↑(r :: t.set i row).flatten : Multiset Nat) + ↑(t.getD i []) =
    ↑(r :: t).flatten + ↑row
  simp only [List.flatten_cons, ← Multiset.coe_add]
  have ih := flattenMS_set_row t i row (by simpa using h)
  ext x
  have hcount := congrArg (Multiset.count x) ih
  simp only [Multiset.count_add, ← Multiset.coe_add, Multiset.coe_count] at hcount ⊢
  omega

theorem flattenMS_setCell {g : Grid} {i j : Nat} (v : Nat)
    (hi : i < g.length) (hj : j < (g.getD i []).length) :
    (↑(setCell g i j v).flatten : Multiset Nat) + {getCell g i j} =
      ↑g.flatten + {v} := by
  have h1 : (↑(setCell g i j v).flatten : Multiset Nat) + ↑(g.getD i []) =
      ↑g.flatten + ↑((g.getD i []).set j v) :=
    flattenMS_set_row g i ((g.getD i []).set j v) hi
  have h2 := listMS_set (g.getD i []) j v hj
  have key : (↑(setCell g i j v).flatten : Multiset Nat) + {getCell g i j} + ↑(g.getD i [])
      = ↑g.flatten + {v} + ↑(g.getD i []) := by
    calc (↑(setCell g i j v).flatten : Multiset Nat) + {getCell g i j} + ↑(g.getD i [])
        = (↑(setCell g i j v).flatten + ↑(g.getD i [])) + {getCell g i j} := by abel
      _ = (↑g.flatten + ↑((g.getD i []).set j v)) + {getCell g i j} := by rw [h1]
      _ = ↑g.flatten + (↑((g.getD i []).set j v) + {(g.getD i []).getD j 0}) := by abel
      _ = ↑g.flatten + (↑(g.getD i []) + {v}) := by rw [h2]
      _ = ↑g.flatten + {v} + ↑(g.getD i []) := by abel
  exact add_right_cancel key

theorem tiles_eq_filter (g : Grid) :
    tiles g = (↑g.flatten : Multiset Nat).filter (fun v => v ≠ 0) := by
  simp [tiles, Multiset.filter_coe]

theorem tiles_setCell {g : Grid} {i j : Nat} (v : Nat)
    (hi : i < g.length) (hj : j < (g.getD i []).length) :
    tiles (setCell g i j v) +
      (if getCell g i j ≠ 0 then ({getCell g i j} : Multiset Nat) else 0) =
    tiles g + (if v ≠ 0 then ({v} : Multiset Nat) else 0) := by
  have h := congrArg (Multiset.filter (fun v => v ≠ 0)) (flattenMS_setCell v hi hj)
  simp only [Multiset.filter_add, Multiset.filter_singleton] at h
  rw [tiles_eq_filter, tiles_eq_filter]
  exact h

theorem mem_flatten_setCell {g : Grid} {i j v x : Nat}
    (h : x ∈ (setCell g i j v).flatten) : x = v ∨ x ∈ g.flatten := by
  obtain ⟨r, hr, hx⟩ := List.mem_flatten.mp h
  rcases List.mem_or_eq_of_mem_set hr with hmem | rfl
  · exact Or.inr (List.mem_flatten.mpr ⟨r, hmem, hx⟩)
  · rcases List.mem_or_eq_of_mem_set hx with hmem | rfl
    · by_cases hi : i < g.length
      · exact Or.inr (List.mem_flatten.mpr ⟨g.getD i [], getD_mem [] hi, hmem⟩)
      · rw [List.getD_eq_default _ _ (by omega)] at hmem
        cases hmem
    · exact Or.inl rfl

/-! Lemmas about the merge pass. -/

/-- One merge pass with no chained merging, as the specification describes
it: a pair of equal adjacent tiles becomes one doubled tile and the scan
continues strictly after it, so a tile produced by a merge is never an
input to another merge of the same pass. -/
inductive NoChainMerge : List Nat → List Nat → Prop
| nil : NoChainMerge [] []
| single (x : Nat) : NoChainMerge [x] [x]
| merge (x : Nat) (rest out : List Nat) :
    NoChainMerge rest out → NoChainMerge (x :: x :: rest) (x * 2 :: out)
| skip (x y : Nat) (rest out : List Nat) :
    x ≠ y → NoChainMerge (y :: rest) out → NoChainMerge (x :: y :: rest) (x :: out)

theorem mergePass_eq_merge (x : Nat) (rest : List Nat) :
    mergePass (x :: x :: rest) =
      (x * 2 :: (mergePass rest).1, x * 2 + (mergePass rest).2.1,
       (mergePass rest).2.2 + 1) := by
  simp [mergePass]

theorem mergePass_eq_skip {x y : Nat} (h : x ≠ y) (rest : List Nat) :
    mergePass (x :: y :: rest) =
      (x :: (mergePass (y :: rest)).1, (mergePass (y :: rest)).2.1,
       (mergePass (y :: rest)).2.2) := by
  simp [mergePass, h]

theorem mergePass_noChain : ∀ l : List Nat, NoChainMerge l (mergePass l).1
| [] => NoChainMerge.nil
| [x] => NoChainMerge.single x
| x :: y :: rest => by
  by_cases h : x = y
  · subst h
    have ih := mergePass_noChain rest
    rw [mergePass_eq_merge]
    exact NoChainMerge.merge x rest _ ih
  · have ih := mergePass_noChain (y :: rest)
    rw [mergePass_eq_skip h]
    exact NoChainMerge.skip x y rest _ h ih

/-- Conservation relation between two tile multisets: `b` is `a` with `n`
merged pairs replaced by their doubled values; `ms` is the multiset of
(pre-doubling) merged values. -/
def Conserves (a b : Multiset Nat) (n : Nat) : Prop :=
  ∃ ms : Multiset Nat, ms.card = n ∧
    b + ms.bind (fun v => {v, v}) = a + ms.map (fun v => v * 2)

theorem Conserves.zero (a : Multiset Nat) : Conserves a a 0 :=
  ⟨0, by simp, by simp⟩

theorem Conserves.trans {a b c : Multiset Nat} {m n : Nat}
    (h1 : Conserves a b m) (h2 : Conserves b c n) : Conserves a c (m + n) := by
  obtain ⟨ms1, hc1, he1⟩ := h1
  obtain ⟨ms2, hc2, he2⟩ := h2
  refine ⟨ms1 + ms2, by simp [hc1, hc2], ?_⟩
  rw [Multiset.add_bind, Multiset.map_add]
  calc c + (ms1.bind (fun v => {v, v}) + ms2.bind (fun v => {v, v}))
      = c + ms2.bind (fun v => {v, v}) + ms1.bind (fun v => {v, v}) := by abel
    _ = b + ms2.map (fun v => v * 2) + ms1.bind (fun v => {v, v}) := by rw [he2]
    _ = b + ms1.bind (fun v => {v, v}) + ms2.map (fun v => v * 2) := by abel
    _ = a + ms1.map (fun v => v * 2) + ms2.map (fun v => v * 2) := by rw [he1]
    _ = a + (ms1.map (fun v => v * 2) + ms2.map (fun v => v * 2)) := by abel

theorem Conserves.card_eq {a b : Multiset Nat} {n : Nat}
    (h : Conserves a b n) : b.card + n = a.card := by
  obtain ⟨ms, hc, he⟩ := h
  have hcard := congrArg Multiset.card he
  have hpair : ∀ v : Nat, (({v, v} : Multiset Nat)).card = 2 := fun v => rfl
  simp only [Multiset.card_add, Multiset.card_bind, Multiset.card_map,
    Function.comp_def, hpair, Multiset.map_const', Multiset.sum_replicate,
    smul_eq_mul] at hcard
  omega

theorem mergePass_conserves : ∀ l : List Nat,
    Conserves (↑l) (↑(mergePass l).1) (mergePass l).2.2
| [] => Conserves.zero _
| [x] => Conserves.zero _
| x :: y :: rest => by
  by_cases h : x = y
  · subst h
    obtain ⟨ms, hc, he⟩ := mergePass_conserves rest
    rw [mergePass_eq_merge]
    refine ⟨x ::ₘ ms, by simp [hc], ?_⟩
    simp only [Multiset.cons_bind, Multiset.map_cons, ← Multiset.cons_coe]
    rw [Multiset.insert_eq_cons]
    simp only [Multiset.cons_add, Multiset.add_cons, Multiset.singleton_add]
    rw [he]
    ext a
    simp only [Multiset.count_cons, Multiset.count_add]
    ring
  · obtain ⟨ms, hc, he⟩ := mergePass_conserves (y :: rest)
    rw [mergePass_eq_skip h]
    refine ⟨ms, hc, ?_⟩
    simp only [← Multiset.cons_coe, Multiset.cons_add]
    rw [he, show ((y :: rest : List Nat) : Multiset Nat) = y ::ₘ ↑rest from
      (Multiset.cons_coe y rest).symm, Multiset.cons_add]

theorem mergePass_nonzero : ∀ l : List Nat, (∀ x ∈ l, x ≠ 0) →
    ∀ y ∈ (mergePass l).1, y ≠ 0
| [], _, y, hy => by simp [mergePass] at hy
| [x], h, y, hy => by
  simp only [mergePass, List.mem_singleton] at hy
  subst hy
  exact h y (by simp)
| x :: y :: rest, h, z, hz => by
  by_cases hxy : x = y
  · subst hxy
    rw [mergePass_eq_merge] at hz
    simp only [List.mem_cons] at hz
    rcases hz with rfl | hz
    · have := h x (by simp)
      omega
    · refine mergePass_nonzero rest ?_ z hz
      intro a ha
      exact h a (by simp [ha])
  · rw [mergePass_eq_skip hxy] at hz
    simp only [List.mem_cons] at hz
    rcases hz with rfl | hz
    · exact h z (by simp)
    · refine mergePass_nonzero (y :: rest) ?_ z hz
      intro a ha
      simp only [List.mem_cons] at ha
      exact h a (by simp only [List.mem_cons]; tauto)

theorem mergePass_mem : ∀ l : List Nat, ∀ y ∈ (mergePass l).1,
    y ∈ l ∨ ∃ x ∈ l, y = x * 2
| [], y, hy => by simp [mergePass] at hy
| [x], y, hy => by
  simp only [mergePass, List.mem_singleton] at hy
  exact Or.inl (by simp [hy])
| x :: y :: rest, z, hz => by
  by_cases hxy : x = y
  · subst hxy
    rw [mergePass_eq_merge] at hz
    simp only [List.mem_cons] at hz
    rcases hz with rfl | hz
    · exact Or.inr ⟨x, by simp, rfl⟩
    · rcases mergePass_mem rest z hz with hmem | ⟨w, hw, hww⟩
      · exact Or.inl (by simp [hmem])
      · exact Or.inr ⟨w, by simp [hw], hww⟩
  · rw [mergePass_eq_skip hxy] at hz
    simp only [List.mem_cons] at hz
    rcases hz with rfl | hz
    · exact Or.inl (by simp)
    · rcases mergePass_mem (y :: rest) z hz with hmem | ⟨w, hw, hww⟩
      · exact Or.inl (by simp only [List.mem_cons] at hmem ⊢; tauto)
      · refine Or.inr ⟨w, ?_, hww⟩
        simp only [List.mem_cons] at hw ⊢; tauto

/-! Invariants of the tile-by-tile move engine. -/

/-- The power-of-two data-model invariant: every non-zero cell value is
2^k for some k ≥ 1. -/
def PowTwoGrid (g : Grid) : Prop :=
  ∀ v ∈ g.flatten, v ≠ 0 → ∃ k, 1 ≤ k ∧ v = 2 ^ k

theorem processCell_succ (d : Dir) (fuel row col : Nat) (s : MoveState) :
    processCell d (fuel + 1) row col s =
      if getCell s.g row col = 0 then s
      else if inBounds (nextPos d row col) then
        (if getCell s.g (nextPos d row col).1.toNat (nextPos d row col).2.toNat = 0 then
          processCell d fuel (nextPos d row col).1.toNat (nextPos d row col).2.toNat
            { s with g := setCell (setCell s.g (nextPos d row col).1.toNat
                       (nextPos d row col).2.toNat (getCell s.g row col)) row col 0
                     moved := true }
        else if getCell s.g (nextPos d row col).1.toNat (nextPos d row col).2.toNat
               = getCell s.g row col ∧
               ((nextPos d row col).1.toNat, (nextPos d row col).2.toNat) ∉ s.merged then
          { g := setCell (setCell s.g (nextPos d row col).1.toNat
                   (nextPos d row col).2.toNat (getCell s.g row col * 2)) row col 0
            merged := ((nextPos d row col).1.toNat, (nextPos d row col).2.toNat) :: s.merged
            moved := true
            mergeCount := s.mergeCount + 1
            score := s.score + getCell s.g row col * 2 }
        else s)
      else s := rfl

theorem nextPos_ne {d : Dir} {row col : Nat} (h : inBounds (nextPos d row col)) :
    ¬((nextPos d row col).1.toNat = row ∧ (nextPos d row col).2.toNat = col) := by
  obtain ⟨h1, h2, h3, h4⟩ := h
  cases d <;> simp [nextPos, dirOffset] at h1 h2 h3 h4 ⊢ <;> omega

theorem step_move {g : Grid} {row col nr nc : Nat}
    (hW : WellFormed g) (hrc : getCell g row col ≠ 0)
    (hnr : nr < 4) (hnc : nc < 4)
    (hz : getCell g nr nc = 0) (hne : ¬(nr = row ∧ nc = col)) :
    WellFormed (setCell (setCell g nr nc (getCell g row col)) row col 0) ∧
    tiles (setCell (setCell g nr nc (getCell g row col)) row col 0) = tiles g ∧
    0 ∈ (setCell (setCell g nr nc (getCell g row col)) row col 0).flatten ∧
    (PowTwoGrid g →
      PowTwoGrid (setCell (setCell g nr nc (getCell g row col)) row col 0)) := by
  obtain ⟨hrow, hcol⟩ := getCell_ne_zero_bounds hrc
  have hnr' : nr < g.length := by rw [hW.1]; exact hnr
  have hnc' : nc < (g.getD nr []).length := by rw [hW.2 _ (getD_mem [] hnr')]; exact hnc
  set g1 := setCell g nr nc (getCell g row col) with hg1
  have hW1 : WellFormed g1 := wellFormed_setCell hW nr nc _
  have hrow1 : row < g1.length := by rw [length_setCell]; exact hrow
  have hcol1 : col < (g1.getD row []).length := by rw [rowlen_setCell]; exact hcol
  have hval1 : getCell g1 row col = getCell g row col := getCell_setCell_ne _ hne
  have ht1 : tiles g1 = tiles g + {getCell g row col} := by
    have := tiles_setCell (getCell g row col) hnr' hnc'
    rw [if_neg (by simp [hz]), if_pos hrc] at this
    simpa using this
  have ht2 : tiles (setCell g1 row col 0) + {getCell g row col} = tiles g1 := by
    have := tiles_setCell (g := g1) (i := row) (j := col) 0 hrow1 hcol1
    rw [if_pos (by rw [hval1]; exact hrc), if_neg (by simp), hval1] at this
    simpa using this
  refine ⟨wellFormed_setCell hW1 row col 0, ?_, ?_, ?_⟩
  · have : tiles (setCell g1 row col 0) + {getCell g row col}
        = tiles g + {getCell g row col} := by rw [ht2, ht1]
    exact add_right_cancel this
  · have h0 : getCell (setCell g1 row col 0) row col = 0 :=
      getCell_setCell_self 0 hrow1 hcol1
    have hr : row < (setCell g1 row col 0).length := by
      rw [length_setCell]; exact hrow1
    have hc : col < ((setCell g1 row col 0).getD row []).length := by
      rw [rowlen_setCell]; exact hcol1
    have hmem := getCell_mem_flatten hr hc
    rwa [h0] at hmem
  · intro hp v hv hv0
    rcases mem_flatten_setCell hv with rfl | hv1
    · exact absurd rfl hv0
    · rcases mem_flatten_setCell hv1 with rfl | hv2
      · exact hp _ (getCell_mem_flatten hrow hcol) hv0
      · exact hp v hv2 hv0

theorem step_merge {g : Grid} {row col nr nc : Nat}
    (hW : WellFormed g) (hrc : getCell g row col ≠ 0)
    (hnr : nr < 4) (hnc : nc < 4)
    (hz : getCell g nr nc = getCell g row col) (hne : ¬(nr = row ∧ nc = col)) :
    WellFormed (setCell (setCell g nr nc (getCell g row col * 2)) row col 0) ∧
    tiles (setCell (setCell g nr nc (getCell g row col * 2)) row col 0) +
      {getCell g row col, getCell g row col} = tiles g + {getCell g row col * 2} ∧
    0 ∈ (setCell (setCell g nr nc (getCell g row col * 2)) row col 0).flatten ∧
    (PowTwoGrid g →
      PowTwoGrid (setCell (setCell g nr nc (getCell g row col * 2)) row col 0)) := by
  obtain ⟨hrow, hcol⟩ := getCell_ne_zero_bounds hrc
  have hnr' : nr < g.length := by rw [hW.1]; exact hnr
  have hnc' : nc < (g.getD nr []).length := by rw [hW.2 _ (getD_mem [] hnr')]; exact hnc
  set g1 := setCell g nr nc (getCell g row col * 2) with hg1
  have hW1 : WellFormed g1 := wellFormed_setCell hW nr nc _
  have hrow1 : row < g1.length := by rw [length_setCell]; exact hrow
  have hcol1 : col < (g1.getD row []).length := by rw [rowlen_setCell]; exact hcol
  have hval1 : getCell g1 row col = getCell g row col := getCell_setCell_ne _ hne
  have ht1 : tiles g1 + {getCell g row col} = tiles g + {getCell g row col * 2} := by
    have := tiles_setCell (getCell g row col * 2) hnr' hnc'
    rw [if_pos (by rw [hz]; exact hrc), if_pos (by simpa using hrc), hz] at this
    exact this
  have ht2 : tiles (setCell g1 row col 0) + {getCell g row col} = tiles g1 := by
    have := tiles_setCell (g := g1) (i := row) (j := col) 0 hrow1 hcol1
    rw [if_pos (by rw [hval1]; exact hrc), if_neg (by simp), hval1] at this
    simpa using this
  refine ⟨wellFormed_setCell hW1 row col 0, ?_, ?_, ?_⟩
  · have hpair : ({getCell g row col, getCell g row col} : Multiset Nat)
        = {getCell g row col} + {getCell g row col} := by
      rw [Multiset.insert_eq_cons, ← Multiset.singleton_add]
    rw [hpair, ← add_assoc, ht2, ht1]
  · have h0 : getCell (setCell g1 row col 0) row col = 0 :=
      getCell_setCell_self 0 hrow1 hcol1
    have hr : row < (setCell g1 row col 0).length := by
      rw [length_setCell]; exact hrow1
    have hc : col < ((setCell g1 row col 0).getD row []).length := by
      rw [rowlen_setCell]; exact hcol1
    have hmem := getCell_mem_flatten hr hc
    rwa [h0] at hmem
  · intro hp v hv hv0
    rcases mem_flatten_setCell hv with rfl | hv1
    · exact absurd rfl hv0
    · rcases mem_flatten_setCell hv1 with rfl | hv2
      · obtain ⟨k, hk1, hk2⟩ := hp _ (getCell_mem_flatten hrow hcol) hrc
        exact ⟨k + 1, by omega, by rw [hk2, pow_succ]⟩
      · exact hp v hv2 hv0

theorem processCell_inv (d : Dir) : ∀ (fuel row col : Nat) (s : MoveState),
    WellFormed s.g →
    WellFormed (processCell d fuel row col s).g ∧
    (∃ n, (processCell d fuel row col s).mergeCount = s.mergeCount + n ∧
      Conserves (tiles s.g) (tiles (processCell d fuel row col s).g) n) ∧
    ((s.moved = true → 0 ∈ s.g.flatten) →
      ((processCell d fuel row col s).moved = true →
        0 ∈ (processCell d fuel row col s).g.flatten)) ∧
    (PowTwoGrid s.g → PowTwoGrid (processCell d fuel row col s).g) := by
  intro fuel
  induction fuel with
  | zero =>
    intro row col s hW
    exact ⟨hW, ⟨0, rfl, Conserves.zero _⟩, fun h => h, fun h => h⟩
  | succ fuel ih =>
    intro row col s hW
    rw [processCell_succ]
    by_cases h0 : getCell s.g row col = 0
    · rw [if_pos h0]
      exact ⟨hW, ⟨0, rfl, Conserves.zero _⟩, fun h => h, fun h => h⟩
    · rw [if_neg h0]
      by_cases hb : inBounds (nextPos d row col)
      · rw [if_pos hb]
        have hnr4 : (nextPos d row col).1.toNat < 4 := by
          obtain ⟨a, b, c, e⟩ := hb; omega
        have hnc4 : (nextPos d row col).2.toNat < 4 := by
          obtain ⟨a, b, c, e⟩ := hb; omega
        have hne := nextPos_ne hb
        by_cases hz : getCell s.g (nextPos d row col).1.toNat
            (nextPos d row col).2.toNat = 0
        · rw [if_pos hz]
          obtain ⟨hW', ht', hzero', hpo2'⟩ := step_move hW h0 hnr4 hnc4 hz hne
          obtain ⟨hWt, ⟨n, hn, hcons⟩, hmv, hpo⟩ :=
            ih (nextPos d row col).1.toNat (nextPos d row col).2.toNat
              { s with g := setCell (setCell s.g (nextPos d row col).1.toNat
                         (nextPos d row col).2.toNat (getCell s.g row col)) row col 0
                       moved := true } hW'
          refine ⟨hWt, ⟨n, hn, ?_⟩, ?_, ?_⟩
          · have hcons' : Conserves
                (tiles (setCell (setCell s.g (nextPos d row col).1.toNat
                  (nextPos d row col).2.toNat (getCell s.g row col)) row col 0))
                (tiles (processCell d fuel (nextPos d row col).1.toNat
                  (nextPos d row col).2.toNat
                  { s with g := setCell (setCell s.g (nextPos d row col).1.toNat
                             (nextPos d row col).2.toNat (getCell s.g row col)) row col 0
                           moved := true }).g) n := hcons
            rw [ht'] at hcons'
            exact hcons'
          · intro _
            exact hmv (fun _ => hzero')
          · intro hp
            exact hpo (hpo2' hp)
        · rw [if_neg hz]
          by_cases hm : getCell s.g (nextPos d row col).1.toNat
              (nextPos d row col).2.toNat = getCell s.g row col ∧
              ((nextPos d row col).1.toNat, (nextPos d row col).2.toNat) ∉ s.merged
          · rw [if_pos hm]
            obtain ⟨hW', ht', hzero', hpo2'⟩ := step_merge hW h0 hnr4 hnc4 hm.1 hne
            refine ⟨hW', ⟨1, rfl, ?_⟩, ?_, ?_⟩
            · refine ⟨{getCell s.g row col}, by simp, ?_⟩
              simp only [Multiset.singleton_bind, Multiset.map_singleton]
              exact ht'
            · intro _ _
              exact hzero'
            · intro hp
              exact hpo2' hp
          · rw [if_neg hm]
            exact ⟨hW, ⟨0, rfl, Conserves.zero _⟩, fun h => h, fun h => h⟩
      · rw [if_neg hb]
        exact ⟨hW, ⟨0, rfl, Conserves.zero _⟩, fun h => h, fun h => h⟩

/-! Line-level helper lemmas. -/

theorem filtered_nonzero (l : List Nat) : ∀ x ∈ l.filter (fun v => v ≠ 0), x ≠ 0 := by
  intro x hx
  have := List.of_mem_filter hx
  simpa using this

theorem processLine_row_eq (l : List Nat) :
    (processLine l).row = (mergePass (l.filter (fun v => v ≠ 0))).1 ++
      List.replicate (l.length - (mergePass (l.filter (fun v => v ≠ 0))).1.length) 0 := rfl

theorem processLine_changed_eq (l : List Nat) :
    (processLine l).changed =
      (decide ((l.filter (fun v => v ≠ 0)).length ≠ l.length) ||
       decide ((mergePass (l.filter (fun v => v ≠ 0))).2.2 ≠ 0)) := rfl

theorem processLine_mergeCount_eq (l : List Nat) :
    (processLine l).mergeCount = (mergePass (l.filter (fun v => v ≠ 0))).2.2 := rfl

theorem lineTiles_append_zeros (out : List Nat) (k : Nat) (h : ∀ y ∈ out, y ≠ 0) :
    lineTiles (out ++ List.replicate k 0) = ↑out := by
  unfold lineTiles
  rw [List.filter_append]
  have h1 : out.filter (fun v => v ≠ 0) = out := by
    rw [List.filter_eq_self]
    intro a ha
    simpa using h a ha
  have h2 : (List.replicate k 0).filter (fun v => (v : Nat) ≠ 0) = [] := by
    rw [List.filter_eq_nil_iff]
    intro a ha
    simp [List.eq_of_mem_replicate ha]
  rw [h1, h2, List.append_nil]

theorem lineTiles_processLine (l : List Nat) :
    lineTiles (processLine l).row = ↑(mergePass (l.filter (fun v => v ≠ 0))).1 := by
  rw [processLine_row_eq]
  exact lineTiles_append_zeros _ _ (mergePass_nonzero _ (filtered_nonzero l))

theorem processLine_conserves (l : List Nat) :
    Conserves (lineTiles l) (lineTiles (processLine l).row) (processLine l).mergeCount := by
  rw [lineTiles_processLine]
  exact mergePass_conserves (l.filter (fun v => v ≠ 0))

/-! Claim C5. -/

/-- C5: a tile value produced by a merge during the Line Transform never
participates in a second merge within the same pass — the compacted input
and the produced tiles are related by the `NoChainMerge` relation, whose
merge rule discards the doubled tile from further merging — and the line
[2,2,2,2] oriented toward index 0 transforms to [4,4,0,0] with two merges
and score 8, never to [8,0,0,0]. -/
theorem c5_no_chained_merging :
    (∀ line : List Nat, ∃ out : List Nat,
       NoChainMerge (line.filter (fun v => v ≠ 0)) out ∧
       (processLine line).row = out ++ List.replicate (line.length - out.length) 0) ∧
    processLine [2, 2, 2, 2] =
      { row := [4, 4, 0, 0], changed := true, score := 8, mergeCount := 2 } ∧
    (processLine [2, 2, 2, 2]).row ≠ [8, 0, 0, 0] := by
  refine ⟨?_, by decide, by decide⟩
  intro line
  exact ⟨(mergePass (line.filter (fun v => v ≠ 0))).1,
    mergePass_noChain _, rfl⟩

/-! Claim C7. -/

/-- C7 counterexample: on the all-zero line `processLine` reports
`changed = true` (the claim demands false), and a line holding a single
non-zero tile away from index 0 comes back with the tile compacted to
index 0, not with the same values at the same positions. -/
theorem c7_counterexample :
    (processLine [0, 0, 0, 0]).changed = true ∧
    (processLine [0, 2, 0, 0]).row = [2, 0, 0, 0] ∧
    ([2, 0, 0, 0] : List Nat) ≠ [0, 2, 0, 0] := by
  decide

/-- C7 amended: the all-zero line keeps its values but is flagged
`changed = true` whenever it is non-empty (the flag records the
zero-count comparison `nonZero.length !== line.length`, not an actual
change); a line whose only non-zero element is `v` comes back as `v`
followed by zeros — the element is compacted to index 0 rather than kept
in place — with `changed = true` exactly when the line length is not 1. -/
theorem c7_line_transform_edge_cases (line : List Nat) :
    ((∀ x ∈ line, x = 0) →
       (processLine line).row = line ∧
       (processLine line).changed = decide (line ≠ [])) ∧
    (∀ v : Nat, v ≠ 0 → line.filter (fun x => x ≠ 0) = [v] →
       (processLine line).row = v :: List.replicate (line.length - 1) 0 ∧
       (processLine line).changed = decide (line.length ≠ 1)) := by
  constructor
  · intro hz
    have hfil : line.filter (fun v => v ≠ 0) = [] := by
      rw [List.filter_eq_nil_iff]
      intro a ha
      simp [hz a ha]
    constructor
    · rw [processLine_row_eq, hfil]
      show ([] : List Nat) ++ List.replicate (line.length - 0) 0 = line
      rw [List.nil_append]
      symm
      rw [List.eq_replicate_iff]
      exact ⟨by omega, hz⟩
    · rw [processLine_changed_eq, hfil]
      show (decide ((0 : Nat) ≠ line.length) || decide ((0 : Nat) ≠ 0)) = decide (line ≠ [])
      rw [show decide ((0 : Nat) ≠ 0) = false from by decide, Bool.or_false,
        decide_eq_decide]
      constructor
      · intro h hn
        rw [hn] at h
        exact h rfl
      · intro h hn
        refine h ?_
        cases line with
        | nil => rfl
        | cons a l => exact absurd hn.symm (by simp)
  · intro v hv hfil
    constructor
    · rw [processLine_row_eq, hfil]
      rfl
    · rw [processLine_changed_eq, hfil]
      show (decide ((1 : Nat) ≠ line.length) || decide ((0 : Nat) ≠ 0)) = decide (line.length ≠ 1)
      rw [show decide ((0 : Nat) ≠ 0) = false from by decide, Bool.or_false,
        decide_eq_decide]
      exact ne_comm

/-- C7 amended, witnessed at the concrete edge-case lines [0,0,0,0] and
[0,2,0,0]. -/
theorem c7_line_transform_edge_cases_witness :
    ((processLine [0, 0, 0, 0]).row = [0, 0, 0, 0] ∧
     (processLine [0, 0, 0, 0]).changed = decide (([0, 0, 0, 0] : List Nat) ≠ [])) ∧
    ((processLine [0, 2, 0, 0]).row =
       2 :: List.replicate (([0, 2, 0, 0] : List Nat).length - 1) 0 ∧
     (processLine [0, 2, 0, 0]).changed =
       decide (([0, 2, 0, 0] : List Nat).length ≠ 1)) :=
  ⟨(c7_line_transform_edge_cases [0, 0, 0, 0]).1 (by decide),
   (c7_line_transform_edge_cases [0, 2, 0, 0]).2 2 (by decide) (by decide)⟩

/-! Claim C2. -/

/-- C2: the active `simulateMove` leaves the values of every grid
untouched for every direction, so the grid a MAX node of `expectimax`
hands to the recursive CHANCE call is the unmodified input grid; at the
concrete input [[0,2,0,0],0,0,0] with direction LEFT the move is reported
as `moved = true`, yet the grid the recursion receives still equals the
input, while the shadowed line-based move application produces the
genuinely different successor [[2,0,0,0],0,0,0]. -/
theorem c2_chance_recursion_gets_unmoved_grid :
    (∀ (g : Grid) (d : Dir), (simulateMove g d).1 = g) ∧
    (simulateMove [[0, 2, 0, 0], [0, 0, 0, 0], [0, 0, 0, 0], [0, 0, 0, 0]] Dir.left).2
      = true ∧
    (simulateMove [[0, 2, 0, 0], [0, 0, 0, 0], [0, 0, 0, 0], [0, 0, 0, 0]] Dir.left).1
      = [[0, 2, 0, 0], [0, 0, 0, 0], [0, 0, 0, 0], [0, 0, 0, 0]] ∧
    (simulateMoveShadowed [[0, 2, 0, 0], [0, 0, 0, 0], [0, 0, 0, 0], [0, 0, 0, 0]]
        Dir.left).1
      = [[2, 0, 0, 0], [0, 0, 0, 0], [0, 0, 0, 0], [0, 0, 0, 0]] ∧
    ([[2, 0, 0, 0], [0, 0, 0, 0], [0, 0, 0, 0], [0, 0, 0, 0]] : Grid)
      ≠ [[0, 2, 0, 0], [0, 0, 0, 0], [0, 0, 0, 0], [0, 0, 0, 0]] := by
  refine ⟨?_, by decide, by decide, by decide, by decide⟩
  intro g d
  cases d <;> simp [simulateMove]

/-! Claim C8. -/

/-- Invariant of the evaluation cache: every stored value is the weighted
evaluation of its key.  `evaluateGrid` only ever inserts such pairs, so
the invariant holds of the module cache throughout a session. -/
def CacheWF (c : EvalCache) : Prop := ∀ p ∈ c, p.2 = evaluationOf p.1

/-- C8: on any cache satisfying the invariant, `evaluateGrid` returns
exactly the pure weighted feature sum for the grid — so a cached call
agrees with a first-time call — and preserves the invariant; and the pure
evaluation is literally the weighted sum of the eight features with the
trapped penalty subtracted. -/
theorem c8_evaluateGrid_pure (c : EvalCache) (g : Grid) (h : CacheWF c) :
    (evaluateGrid c g).1 = evaluationOf g ∧
    CacheWF (evaluateGrid c g).2 ∧
    evaluationOf g =
      HEURISTIC_WEIGHTS.emptyCells * (countEmptyCells g : ℚ) +
      HEURISTIC_WEIGHTS.smoothness * calculateSmoothness g +
      HEURISTIC_WEIGHTS.monotonicity * calculateMonotonicity g +
      HEURISTIC_WEIGHTS.maxValue * (getMaxValue g : ℚ) +
      HEURISTIC_WEIGHTS.positionScore * calculatePositionScore g +
      HEURISTIC_WEIGHTS.potentialMerges * (countPotentialMerges g : ℚ) +
      HEURISTIC_WEIGHTS.cornerMax *
        (if isMaxValueInCorner g (some (getMaxValue g)) then 1 else 0) -
      HEURISTIC_WEIGHTS.trappedPenalty * calculateTrappedPenalty g := by
  refine ⟨?_, ?_, rfl⟩
  · unfold evaluateGrid
    cases hl : cacheLookup c g with
    | none => rfl
    | some v =>
      simp only
      unfold cacheLookup at hl
      cases hf : c.find? (fun p => decide (p.1 = g)) with
      | none => rw [hf] at hl; simp at hl
      | some p =>
        rw [hf] at hl
        have hl2 : p.2 = v := by simpa using hl
        have hmem := List.mem_of_find?_eq_some hf
        have hkey : p.1 = g := by
          have := List.find?_some hf
          simpa using this
        rw [← hl2, h p hmem, hkey]
  · unfold evaluateGrid
    cases hl : cacheLookup c g with
    | none =>
      intro p hp
      rcases List.mem_cons.mp hp with rfl | hp
      · rfl
      · exact h p hp
    | some v => exact h

/-- C8, witnessed on the empty cache and a concrete grid. -/
theorem c8_evaluateGrid_pure_witness :
    (evaluateGrid [] [[2, 4, 0, 0], [0, 0, 0, 0], [0, 0, 0, 0], [0, 0, 0, 0]]).1 =
      evaluationOf [[2, 4, 0, 0], [0, 0, 0, 0], [0, 0, 0, 0], [0, 0, 0, 0]] ∧
    CacheWF (evaluateGrid [] [[2, 4, 0, 0], [0, 0, 0, 0], [0, 0, 0, 0], [0, 0, 0, 0]]).2 ∧
    evaluationOf [[2, 4, 0, 0], [0, 0, 0, 0], [0, 0, 0, 0], [0, 0, 0, 0]] =
      HEURISTIC_WEIGHTS.emptyCells *
        (countEmptyCells [[2, 4, 0, 0], [0, 0, 0, 0], [0, 0, 0, 0], [0, 0, 0, 0]] : ℚ) +
      HEURISTIC_WEIGHTS.smoothness *
        calculateSmoothness [[2, 4, 0, 0], [0, 0, 0, 0], [0, 0, 0, 0], [0, 0, 0, 0]] +
      HEURISTIC_WEIGHTS.monotonicity *
        calculateMonotonicity [[2, 4, 0, 0], [0, 0, 0, 0], [0, 0, 0, 0], [0, 0, 0, 0]] +
      HEURISTIC_WEIGHTS.maxValue *
        (getMaxValue [[2, 4, 0, 0], [0, 0, 0, 0], [0, 0, 0, 0], [0, 0, 0, 0]] : ℚ) +
      HEURISTIC_WEIGHTS.positionScore *
        calculatePositionScore [[2, 4, 0, 0], [0, 0, 0, 0], [0, 0, 0, 0], [0, 0, 0, 0]] +
      HEURISTIC_WEIGHTS.potentialMerges *
        (countPotentialMerges [[2, 4, 0, 0], [0, 0, 0, 0], [0, 0, 0, 0], [0, 0, 0, 0]] : ℚ) +
      HEURISTIC_WEIGHTS.cornerMax *
        (if isMaxValueInCorner [[2, 4, 0, 0], [0, 0, 0, 0], [0, 0, 0, 0], [0, 0, 0, 0]]
            (some (getMaxValue [[2, 4, 0, 0], [0, 0, 0, 0], [0, 0, 0, 0], [0, 0, 0, 0]]))
         then 1 else 0) -
      HEURISTIC_WEIGHTS.trappedPenalty *
        calculateTrappedPenalty [[2, 4, 0, 0], [0, 0, 0, 0], [0, 0, 0, 0], [0, 0, 0, 0]] :=
  c8_evaluateGrid_pure [] [[2, 4, 0, 0], [0, 0, 0, 0], [0, 0, 0, 0], [0, 0, 0, 0]]
    (by intro p hp; simp at hp)


/-! Claim C4. -/

/-- C4: under the 4×4 shape invariant, a grid with no zero cell, no equal
horizontally-adjacent pair and no equal vertically-adjacent pair makes
`checkGameOver` return true, and a grid with at least one zero cell makes
it return false regardless of the tile arrangement. -/
theorem c4_game_over (g : Grid) (hW : WellFormed g) :
    ((¬ ∃ i, i < 4 ∧ ∃ j, j < 4 ∧ getCell g i j = 0) →
     (¬ ∃ i, i < 4 ∧ ∃ j, j < 3 ∧ getCell g i j = getCell g i (j + 1)) →
     (¬ ∃ i, i < 3 ∧ ∃ j, j < 4 ∧ getCell g i j = getCell g (i + 1) j) →
     checkGameOver g = true) ∧
    ((∃ i, i < 4 ∧ ∃ j, j < 4 ∧ getCell g i j = 0) → checkGameOver g = false) := by
  have h1 : (g.any (fun row => row.any (fun cell => decide (cell = 0))) = true) ↔
      ∃ i, i < 4 ∧ ∃ j, j < 4 ∧ getCell g i j = 0 := by
    simp only [List.any_eq_true, decide_eq_true_eq]
    constructor
    · rintro ⟨row, hrow, cell, hcell, hc0⟩
      obtain ⟨i, hi, hgi⟩ := (mem_iff_getD ([] : List Nat)).mp hrow
      obtain ⟨j, hj, hrj⟩ := (mem_iff_getD (0 : Nat)).mp hcell
      have hi4 : i < 4 := by have := hW.1; omega
      have hj4 : j < 4 := by have := hW.2 row hrow; omega
      refine ⟨i, hi4, j, hj4, ?_⟩
      show (g.getD i []).getD j 0 = 0
      rw [hgi, hrj]
      exact hc0
    · rintro ⟨i, hi, j, hj, h0⟩
      have hil : i < g.length := by rw [hW.1]; exact hi
      have hrmem : g.getD i [] ∈ g := getD_mem [] hil
      have hjl : j < (g.getD i []).length := by rw [hW.2 _ hrmem]; exact hj
      exact ⟨g.getD i [], hrmem, (g.getD i []).getD j 0, getD_mem 0 hjl, h0⟩
  have h2 : ((List.range 4).any (fun i => (List.range 4).any (fun j =>
      decide (getCell g i j = 0))) = true) ↔
      ∃ i, i < 4 ∧ ∃ j, j < 4 ∧ getCell g i j = 0 := by
    simp [List.any_eq_true, List.mem_range]
  have h3 : ((List.range 4).any (fun i => (List.range 4).any (fun j =>
      (decide (j < 3) && decide (getCell g i j = getCell g i (j + 1))) ||
      (decide (i < 3) && decide (getCell g i j = getCell g (i + 1) j)))) = true) ↔
      ∃ i, i < 4 ∧ ∃ j, j < 4 ∧
        ((j < 3 ∧ getCell g i j = getCell g i (j + 1)) ∨
         (i < 3 ∧ getCell g i j = getCell g (i + 1) j)) := by
    simp [List.any_eq_true, List.mem_range]
  have h4 : ((List.range 4).any (fun i => (List.range 4).any (fun j =>
      (decide (j < 3) && decide (getCell g i (j + 1) = getCell g i j)) ||
      (decide (i < 3) && decide (getCell g (i + 1) j = getCell g i j)))) = true) ↔
      ∃ i, i < 4 ∧ ∃ j, j < 4 ∧
        ((j < 3 ∧ getCell g i (j + 1) = getCell g i j) ∨
         (i < 3 ∧ getCell g (i + 1) j = getCell g i j)) := by
    simp [List.any_eq_true, List.mem_range]
  constructor
  · intro hz hh hv
    have hc1 : (g.any (fun row => row.any (fun cell => decide (cell = 0)))) = false := by
      rw [← Bool.not_eq_true]
      exact fun hb => hz (h1.mp hb)
    have hc2 : ((List.range 4).any (fun i => (List.range 4).any (fun j =>
        decide (getCell g i j = 0)))) = false := by
      rw [← Bool.not_eq_true]
      exact fun hb => hz (h2.mp hb)
    have hc3 : ((List.range 4).any (fun i => (List.range 4).any (fun j =>
        (decide (j < 3) && decide (getCell g i j = getCell g i (j + 1))) ||
        (decide (i < 3) && decide (getCell g i j = getCell g (i + 1) j))))) = false := by
      rw [← Bool.not_eq_true]
      intro hb
      obtain ⟨i, hi, j, hj, hcase⟩ := h3.mp hb
      rcases hcase with ⟨hj3, he⟩ | ⟨hi3, he⟩
      · exact hh ⟨i, hi, j, hj3, he⟩
      · exact hv ⟨i, hi3, j, hj, he⟩
    have hc4 : ((List.range 4).any (fun i => (List.range 4).any (fun j =>
        (decide (j < 3) && decide (getCell g i (j + 1) = getCell g i j)) ||
        (decide (i < 3) && decide (getCell g (i + 1) j = getCell g i j))))) = false := by
      rw [← Bool.not_eq_true]
      intro hb
      obtain ⟨i, hi, j, hj, hcase⟩ := h4.mp hb
      rcases hcase with ⟨hj3, he⟩ | ⟨hi3, he⟩
      · exact hh ⟨i, hi, j, hj3, he.symm⟩
      · exact hv ⟨i, hi3, j, hj, he.symm⟩
    simp [checkGameOver, hc1, hc2, hc3, hc4]
  · intro hz
    have hc1 : (g.any (fun row => row.any (fun cell => decide (cell = 0)))) = true :=
      h1.mpr hz
    simp [checkGameOver, hc1]

/-- C4, witnessed at a fully-populated grid with no equal adjacent pair
(game over) and at a grid containing a zero cell (not game over). -/
theorem c4_game_over_witness :
    checkGameOver [[2, 4, 8, 16], [32, 64, 128, 256], [512, 1024, 2, 4],
      [8, 16, 32, 64]] = true ∧
    checkGameOver [[0, 2, 0, 0], [0, 0, 0, 0], [0, 0, 0, 0], [0, 0, 0, 0]] = false :=
  ⟨(c4_game_over [[2, 4, 8, 16], [32, 64, 128, 256], [512, 1024, 2, 4], [8, 16, 32, 64]]
      (by constructor <;> decide)).1 (by decide) (by decide) (by decide),
   (c4_game_over [[0, 2, 0, 0], [0, 0, 0, 0], [0, 0, 0, 0], [0, 0, 0, 0]]
      (by constructor <;> decide)).2 (by decide)⟩


/-! Lemmas about empty cells and the CHANCE branch of expectimax. -/

theorem mem_emptyCellsList {g : Grid} {c : Nat × Nat} :
    c ∈ emptyCellsList g ↔ c.1 < 4 ∧ c.2 < 4 ∧ getCell g c.1 c.2 = 0 := by
  cases c with
  | mk i j =>
    simp only [emptyCellsList, List.mem_flatMap, List.mem_filterMap, List.mem_range]
    constructor
    · rintro ⟨a, ha, b, hb, hab⟩
      by_cases hz : getCell g a b = 0
      · rw [if_pos hz] at hab
        obtain ⟨rfl, rfl⟩ := Prod.mk.injEq .. ▸ (Option.some.injEq .. ▸ hab)
        exact ⟨ha, hb, hz⟩
      · rw [if_neg hz] at hab
        exact absurd hab (by simp)
    · rintro ⟨hi, hj, hz⟩
      exact ⟨i, hi, j, hj, by rw [if_pos hz]⟩

theorem emptyCellsList_ne_nil_iff {g : Grid} :
    emptyCellsList g ≠ [] ↔ ∃ i, i < 4 ∧ ∃ j, j < 4 ∧ getCell g i j = 0 := by
  rw [ne_eq, List.eq_nil_iff_forall_not_mem]
  push_neg
  constructor
  · rintro ⟨c, hc⟩
    obtain ⟨h1, h2, h3⟩ := mem_emptyCellsList.mp hc
    exact ⟨c.1, h1, c.2, h2, h3⟩
  · rintro ⟨i, hi, j, hj, hz⟩
    exact ⟨(i, j), mem_emptyCellsList.mpr ⟨hi, hj, hz⟩⟩

theorem checkGameOver_false_of_empty (g : Grid)
    (h : ∃ i, i < 4 ∧ ∃ j, j < 4 ∧ getCell g i j = 0) :
    checkGameOver g = false := by
  have h2 : ((List.range 4).any (fun i => (List.range 4).any (fun j =>
      decide (getCell g i j = 0)))) = true := by
    simp only [List.any_eq_true, List.mem_range, decide_eq_true_eq]
    obtain ⟨i, hi, j, hj, hz⟩ := h
    exact ⟨i, hi, j, hj, hz⟩
  unfold checkGameOver
  by_cases hc1 : (g.any (fun row => row.any (fun cell => decide (cell = 0)))) = true
  · simp [hc1]
  · have hc1f : (g.any (fun row => row.any (fun cell => decide (cell = 0)))) = false := by
      revert hc1
      cases g.any (fun row => row.any (fun cell => decide (cell = 0))) <;> simp
    simp [hc1f, h2]

theorem chance_foldl (g : Grid) (depth : Nat) (l : List (Nat × Nat)) :
    ∀ (a : WithBot ℚ) (n : Nat),
    l.foldl (fun (p : WithBot ℚ × Nat) cell =>
      (p.1 + smulB (9 / 10) (expectimax (setCell g cell.1 cell.2 2) depth true).1
           + smulB (1 / 10) (expectimax (setCell g cell.1 cell.2 4) depth true).1,
       p.2 + 1)) (a, n)
    = (a + (l.map (chanceMix g depth)).sum, n + l.length) := by
  induction l with
  | nil => intro a n; simp
  | cons c rest ih =>
    intro a n
    simp only [List.foldl_cons, List.map_cons, List.sum_cons, List.length_cons, ih]
    rw [Prod.mk.injEq]
    refine ⟨?_, ?_⟩
    · show a + smulB (9 / 10) (expectimax (setCell g c.1 c.2 2) depth true).1
           + smulB (1 / 10) (expectimax (setCell g c.1 c.2 4) depth true).1
           + (rest.map (chanceMix g depth)).sum
        = a + (chanceMix g depth c + (rest.map (chanceMix g depth)).sum)
      rw [chanceMix]
      abel
    · show n + 1 + rest.length = n + (rest.length + 1)
      omega

theorem chanceNode_eq (g : Grid) (depth : Nat) (h : emptyCellsList g ≠ []) :
    expectimax g (depth + 1) false =
      (WithBot.map (fun t => t / ((emptyCellsList g).length : ℚ))
        (((emptyCellsList g).map (chanceMix g depth)).sum), none) := by
  have hgo : checkGameOver g = false :=
    checkGameOver_false_of_empty g (emptyCellsList_ne_nil_iff.mp h)
  have hlen : 0 < (emptyCellsList g).length := List.length_pos.mpr h
  rw [expectimax]
  simp only [hgo, Bool.false_eq_true, if_false]
  rw [chance_foldl]
  simp only [zero_add]
  rw [if_pos hlen]

/-! Claim C6. -/

/-- C6: on a grid with at least one empty cell and any depth ≥ 1, the
CHANCE node of expectimax returns the sum over all empty cells of
0.9 × (MAX score with a 2 placed there) + 0.1 × (MAX score with a 4
placed there), divided by the number of empty cells. -/
theorem c6_chance_node (g : Grid) (depth : Nat) (h : emptyCellsList g ≠ []) :
    expectimax g (depth + 1) false =
      (WithBot.map (fun t => t / ((emptyCellsList g).length : ℚ))
        (((emptyCellsList g).map (fun cell =>
          smulB (9 / 10) (expectimax (setCell g cell.1 cell.2 2) depth true).1 +
          smulB (1 / 10) (expectimax (setCell g cell.1 cell.2 4) depth true).1)).sum),
       none) :=
  chanceNode_eq g depth h

/-- C6, witnessed at a concrete grid with exactly one empty cell at
depth 1. -/
theorem c6_chance_node_witness :
    emptyCellsList [[2, 4, 8, 16], [32, 64, 128, 256], [512, 1024, 2, 4],
        [8, 16, 32, 0]] ≠ [] ∧
    expectimax [[2, 4, 8, 16], [32, 64, 128, 256], [512, 1024, 2, 4], [8, 16, 32, 0]]
        1 false =
      (WithBot.map (fun t => t /
          ((emptyCellsList [[2, 4, 8, 16], [32, 64, 128, 256], [512, 1024, 2, 4],
            [8, 16, 32, 0]]).length : ℚ))
        (((emptyCellsList [[2, 4, 8, 16], [32, 64, 128, 256], [512, 1024, 2, 4],
            [8, 16, 32, 0]]).map (fun cell =>
          smulB (9 / 10) (expectimax (setCell [[2, 4, 8, 16], [32, 64, 128, 256],
            [512, 1024, 2, 4], [8, 16, 32, 0]] cell.1 cell.2 2) 0 true).1 +
          smulB (1 / 10) (expectimax (setCell [[2, 4, 8, 16], [32, 64, 128, 256],
            [512, 1024, 2, 4], [8, 16, 32, 0]] cell.1 cell.2 4) 0 true).1)).sum),
       none) :=
  ⟨by decide,
   c6_chance_node [[2, 4, 8, 16], [32, 64, 128, 256], [512, 1024, 2, 4],
     [8, 16, 32, 0]] 0 (by decide)⟩


/-! Lemmas about the stable descending sort of calculateBestMove. -/

theorem mem_insertDesc : ∀ {acc : List (Dir × ℚ)} {x y : Dir × ℚ},
    (y ∈ insertDesc acc x ↔ y = x ∨ y ∈ acc)
| [], x, y => by simp [insertDesc]
| a :: as, x, y => by
  unfold insertDesc
  by_cases hc : a.2 < x.2
  · rw [if_pos hc]
    simp [List.mem_cons]
  · rw [if_neg hc]
    simp only [List.mem_cons, mem_insertDesc]
    tauto

theorem pairwise_insertDesc : ∀ {acc : List (Dir × ℚ)} (x : Dir × ℚ),
    acc.Pairwise (fun a b => b.2 ≤ a.2) →
    (insertDesc acc x).Pairwise (fun a b => b.2 ≤ a.2)
| [], x, _ => by simp [insertDesc]
| a :: as, x, h => by
  obtain ⟨ha, has⟩ := List.pairwise_cons.mp h
  unfold insertDesc
  by_cases hc : a.2 < x.2
  · rw [if_pos hc]
    refine List.pairwise_cons.mpr ⟨?_, h⟩
    intro z hz
    rcases List.mem_cons.mp hz with rfl | hz
    · exact le_of_lt hc
    · exact le_trans (ha z hz) (le_of_lt hc)
  · rw [if_neg hc]
    refine List.pairwise_cons.mpr ⟨?_, pairwise_insertDesc x has⟩
    intro z hz
    rcases mem_insertDesc.mp hz with rfl | hz
    · exact not_lt.mp hc
    · exact ha z hz

theorem mem_foldl_insertDesc : ∀ (l acc : List (Dir × ℚ)) (y : Dir × ℚ),
    y ∈ l.foldl insertDesc acc ↔ y ∈ acc ∨ y ∈ l
| [], acc, y => by simp
| c :: rest, acc, y => by
  rw [List.foldl_cons, mem_foldl_insertDesc rest (insertDesc acc c) y,
    mem_insertDesc]
  simp [List.mem_cons]
  tauto

theorem pairwise_foldl_insertDesc : ∀ (l acc : List (Dir × ℚ)),
    acc.Pairwise (fun a b => b.2 ≤ a.2) →
    (l.foldl insertDesc acc).Pairwise (fun a b => b.2 ≤ a.2)
| [], acc, h => h
| c :: rest, acc, h =>
  pairwise_foldl_insertDesc rest (insertDesc acc c) (pairwise_insertDesc c h)

theorem mem_sortByScoreDesc {l : List (Dir × ℚ)} {y : Dir × ℚ} :
    y ∈ sortByScoreDesc l ↔ y ∈ l := by
  rw [sortByScoreDesc, mem_foldl_insertDesc]
  simp

theorem pairwise_sortByScoreDesc (l : List (Dir × ℚ)) :
    (sortByScoreDesc l).Pairwise (fun a b => b.2 ≤ a.2) :=
  pairwise_foldl_insertDesc l [] (by simp)

theorem find?_sorted_max : ∀ {l : List (Dir × ℚ)} {p : (Dir × ℚ) → Bool}
    {m : Dir × ℚ}, l.Pairwise (fun a b => b.2 ≤ a.2) → l.find? p = some m →
    ∀ z ∈ l, p z = true → z.2 ≤ m.2
| [], p, m, _, hf => by simp at hf
| a :: as, p, m, hs, hf => by
  obtain ⟨ha, has⟩ := List.pairwise_cons.mp hs
  by_cases hp : p a = true
  · rw [List.find?_cons_of_pos _ hp] at hf
    obtain rfl := Option.some.injEq .. ▸ hf
    intro z hz _
    rcases List.mem_cons.mp hz with rfl | hz
    · exact le_refl _
    · exact ha z hz
  · rw [List.find?_cons_of_neg _ (by simpa using hp)] at hf
    intro z hz hpz
    rcases List.mem_cons.mp hz with rfl | hz
    · exact absurd hpz hp
    · exact find?_sorted_max has hf z hz hpz

/-- The four scored directions calculateBestMove builds, in source order
UP, RIGHT, DOWN, LEFT. -/
def scoredDirections (g : Grid) : List (Dir × ℚ) :=
  [(Dir.up, evaluateMove g Dir.up none),
   (Dir.right, evaluateMove g Dir.right none),
   (Dir.down, evaluateMove g Dir.down none),
   (Dir.left, evaluateMove g Dir.left none)]

theorem calculateBestMove_eq (g : Grid) (dep : Nat) :
    calculateBestMove g dep =
      ((sortByScoreDesc (scoredDirections g)).find?
        (fun m => isMoveValid g m.1)).map (fun m => m.1) := rfl

theorem scoredDirections_snd {g : Grid} {m : Dir × ℚ}
    (h : m ∈ scoredDirections g) : m.2 = evaluateMove g m.1 none := by
  simp only [scoredDirections, List.mem_cons, List.not_mem_nil, or_false] at h
  rcases h with rfl | rfl | rfl | rfl <;> rfl

theorem mem_scoredDirections (g : Grid) (d : Dir) :
    (d, evaluateMove g d none) ∈ scoredDirections g := by
  cases d <;> simp [scoredDirections]

theorem calculateBestMove_spec {g : Grid} {dep : Nat} {d : Dir}
    (h : calculateBestMove g dep = some d) :
    isMoveValid g d = true ∧
    ∀ d' : Dir, isMoveValid g d' = true →
      evaluateMove g d' none ≤ evaluateMove g d none := by
  rw [calculateBestMove_eq] at h
  cases hf : (sortByScoreDesc (scoredDirections g)).find? (fun m => isMoveValid g m.1) with
  | none => rw [hf] at h; simp at h
  | some m =>
    rw [hf] at h
    have hd : m.1 = d := by simpa using h
    have hvalid : isMoveValid g m.1 = true := by
      have := List.find?_some hf
      simpa using this
    have hm_mem : m ∈ scoredDirections g :=
      mem_sortByScoreDesc.mp (List.mem_of_find?_eq_some hf)
    have hm2 : m.2 = evaluateMove g m.1 none := scoredDirections_snd hm_mem
    refine ⟨hd ▸ hvalid, ?_⟩
    intro d' hd'
    have hz_mem : (d', evaluateMove g d' none) ∈ sortByScoreDesc (scoredDirections g) :=
      mem_sortByScoreDesc.mpr (mem_scoredDirections g d')
    have hle := find?_sorted_max (pairwise_sortByScoreDesc (scoredDirections g)) hf
      (d', evaluateMove g d' none) hz_mem (by simpa using hd')
    calc evaluateMove g d' none ≤ m.2 := hle
      _ = evaluateMove g m.1 none := hm2
      _ = evaluateMove g d none := by rw [hd]

/-! Claim C3. -/

/-- C3 counterexample: at the concrete grid below with difficulty easy
(mapped to depth 2), the AI path returns RIGHT (the single-ply heuristic
best), while the Expectimax search at depth 2 on the same grid chooses
UP, so the selector does not return the direction chosen by Expectimax. -/
theorem c3_counterexample :
    makeAiMove [[2, 2, 4, 8], [16, 32, 64, 128], [256, 512, 1024, 2],
        [4, 8, 16, 0]] Difficulty.easy = some Dir.right ∧
    (difficultySettings Difficulty.easy).depth = 2 ∧
    (expectimax [[2, 2, 4, 8], [16, 32, 64, 128], [256, 512, 1024, 2],
        [4, 8, 16, 0]] 2 true).2 = some Dir.up ∧
    (some Dir.right : Option Dir) ≠ some Dir.up := by
  refine ⟨by with_unfolding_all decide, rfl, by with_unfolding_all decide, by decide⟩

/-- C3 amended: the AI path maps the difficulty to its search depth
(easy=2, medium=3, hard=4, expert=5) and passes that depth to
`calculateBestMove`, but the move chooser ignores the depth — the chosen
direction is the same for every difficulty — and returns a valid
direction maximizing the single-ply heuristic `evaluateMove` (called with
no difficulty argument) among the valid directions, not the direction
chosen by Expectimax. -/
theorem c3_difficulty_depth_and_selector :
    ((difficultySettings Difficulty.easy).depth = 2 ∧
     (difficultySettings Difficulty.medium).depth = 3 ∧
     (difficultySettings Difficulty.hard).depth = 4 ∧
     (difficultySettings Difficulty.expert).depth = 5) ∧
    (∀ (g : Grid) (l1 l2 : Difficulty), makeAiMove g l1 = makeAiMove g l2) ∧
    (∀ (g : Grid) (level : Difficulty) (d : Dir), makeAiMove g level = some d →
      isMoveValid g d = true ∧
      ∀ d' : Dir, isMoveValid g d' = true →
        evaluateMove g d' none ≤ evaluateMove g d none) := by
  refine ⟨⟨rfl, rfl, rfl, rfl⟩, ?_, ?_⟩
  · intro g l1 l2
    rfl
  · intro g level d h
    exact calculateBestMove_spec h

/-- C3 amended, witnessed at a concrete grid and difficulty. -/
theorem c3_difficulty_depth_and_selector_witness :
    isMoveValid [[2, 2, 4, 8], [16, 32, 64, 128], [256, 512, 1024, 2],
      [4, 8, 16, 0]] Dir.right = true ∧
    evaluateMove [[2, 2, 4, 8], [16, 32, 64, 128], [256, 512, 1024, 2],
        [4, 8, 16, 0]] Dir.up none ≤
      evaluateMove [[2, 2, 4, 8], [16, 32, 64, 128], [256, 512, 1024, 2],
        [4, 8, 16, 0]] Dir.right none :=
  have h := c3_difficulty_depth_and_selector.2.2
    [[2, 2, 4, 8], [16, 32, 64, 128], [256, 512, 1024, 2], [4, 8, 16, 0]]
    Difficulty.easy Dir.right (by with_unfolding_all decide)
  ⟨h.1, h.2 Dir.up (by decide)⟩


theorem foldl_processCell_inv (d : Dir) : ∀ (l : List (Nat × Nat)) (s : MoveState),
    WellFormed s.g →
    WellFormed (l.foldl (fun s p => processCell d 8 p.1 p.2 s) s).g ∧
    (∃ n, (l.foldl (fun s p => processCell d 8 p.1 p.2 s) s).mergeCount
        = s.mergeCount + n ∧
      Conserves (tiles s.g)
        (tiles (l.foldl (fun s p => processCell d 8 p.1 p.2 s) s).g) n) ∧
    ((s.moved = true → 0 ∈ s.g.flatten) →
      ((l.foldl (fun s p => processCell d 8 p.1 p.2 s) s).moved = true →
        0 ∈ (l.foldl (fun s p => processCell d 8 p.1 p.2 s) s).g.flatten)) ∧
    (PowTwoGrid s.g →
      PowTwoGrid (l.foldl (fun s p => processCell d 8 p.1 p.2 s) s).g)
| [], s, hW => ⟨hW, ⟨0, rfl, Conserves.zero _⟩, fun h => h, fun h => h⟩
| p :: rest, s, hW => by
  simp only [List.foldl_cons]
  obtain ⟨hW1, ⟨n1, hn1, hc1⟩, hm1, hp1⟩ := processCell_inv d 8 p.1 p.2 s hW
  obtain ⟨hW2, ⟨n2, hn2, hc2⟩, hm2, hp2⟩ :=
    foldl_processCell_inv d rest (processCell d 8 p.1 p.2 s) hW1
  refine ⟨hW2, ⟨n1 + n2, by omega, Conserves.trans hc1 hc2⟩, ?_, fun h => hp2 (hp1 h)⟩
  intro hmv
  exact hm2 (hm1 hmv)

theorem moveTiles_inv (g : Grid) (d : Dir) (hW : WellFormed g) :
    WellFormed (moveTiles g d).g ∧
    Conserves (tiles g) (tiles (moveTiles g d).g) (moveTiles g d).mergeCount ∧
    ((moveTiles g d).moved = true → 0 ∈ (moveTiles g d).g.flatten) ∧
    (PowTwoGrid g → PowTwoGrid (moveTiles g d).g) := by
  obtain ⟨hW', ⟨n, hn, hc⟩, hm, hp⟩ := foldl_processCell_inv d (traversal d)
    { g := g, merged := [], moved := false, mergeCount := 0, score := 0 } hW
  have hn' : (moveTiles g d).mergeCount = n := by
    have hn0 : (MoveState.mk g [] false 0 0).mergeCount = 0 := rfl
    rw [hn0] at hn
    rw [moveTiles]
    omega
  refine ⟨hW', by rw [hn']; exact hc, ?_, hp⟩
  intro hmv
  exact hm (by simp) hmv

/-! Claim C1. -/

/-- C1: conservation of tiles under a move, before any random spawn.  For
every line, the non-zero tile multiset after `processLine` is the pre-move
multiset with exactly `mergeCount` merged pairs replaced by their doubled
values, and the non-zero count drops by exactly `mergeCount`; and for
every well-formed grid and direction, the same holds of the tile-by-tile
`moveTiles` engine with its accumulated `totalMergeCount`. -/
theorem c1_conservation (g : Grid) (d : Dir) (hW : WellFormed g) :
    (∀ line : List Nat,
      (∃ ms : Multiset Nat, ms.card = (processLine line).mergeCount ∧
        lineTiles (processLine line).row + ms.bind (fun v => {v, v})
          = lineTiles line + ms.map (fun v => v * 2)) ∧
      (lineTiles (processLine line).row).card + (processLine line).mergeCount
        = (lineTiles line).card) ∧
    ((∃ ms : Multiset Nat, ms.card = (moveTiles g d).mergeCount ∧
        tiles (moveTiles g d).g + ms.bind (fun v => {v, v})
          = tiles g + ms.map (fun v => v * 2)) ∧
      (tiles (moveTiles g d).g).card + (moveTiles g d).mergeCount
        = (tiles g).card) := by
  constructor
  · intro line
    have h := processLine_conserves line
    exact ⟨h, h.card_eq⟩
  · have h := (moveTiles_inv g d hW).2.1
    exact ⟨h, h.card_eq⟩

/-- C1, witnessed at the spec scenario grid [[2,2,0,0],0,0,0] moved LEFT
and the line [2,2,2,2]. -/
theorem c1_conservation_witness :
    WellFormed [[2, 2, 0, 0], [0, 0, 0, 0], [0, 0, 0, 0], [0, 0, 0, 0]] ∧
    (lineTiles (processLine [2, 2, 2, 2]).row).card +
      (processLine [2, 2, 2, 2]).mergeCount = (lineTiles [2, 2, 2, 2]).card ∧
    (tiles (moveTiles [[2, 2, 0, 0], [0, 0, 0, 0], [0, 0, 0, 0], [0, 0, 0, 0]]
        Dir.left).g).card +
      (moveTiles [[2, 2, 0, 0], [0, 0, 0, 0], [0, 0, 0, 0], [0, 0, 0, 0]]
        Dir.left).mergeCount
      = (tiles [[2, 2, 0, 0], [0, 0, 0, 0], [0, 0, 0, 0], [0, 0, 0, 0]]).card :=
  ⟨by constructor <;> decide,
   ((c1_conservation [[2, 2, 0, 0], [0, 0, 0, 0], [0, 0, 0, 0], [0, 0, 0, 0]]
      Dir.left (by constructor <;> decide)).1 [2, 2, 2, 2]).2,
   (c1_conservation [[2, 2, 0, 0], [0, 0, 0, 0], [0, 0, 0, 0], [0, 0, 0, 0]]
      Dir.left (by constructor <;> decide)).2.2⟩

/-! Claim C9. -/

/-- C9: every core operation preserves the power-of-two invariant.  The
Line Transform maps lines of powers of two to lines of powers of two, the
tile-by-tile move engine preserves `PowTwoGrid` on well-formed grids, and
a random tile spawn (which writes a 2 or a 4) preserves it for any random
choices. -/
theorem c9_power_of_two_invariant (g : Grid) (d : Dir) (hp : PowTwoGrid g) :
    (∀ line : List Nat, (∀ v ∈ line, v ≠ 0 → ∃ k, 1 ≤ k ∧ v = 2 ^ k) →
       ∀ v ∈ (processLine line).row, v ≠ 0 → ∃ k, 1 ≤ k ∧ v = 2 ^ k) ∧
    (WellFormed g → PowTwoGrid (moveTiles g d).g) ∧
    (∀ (pick : Nat) (isFour : Bool), PowTwoGrid (addRandomTile g pick isFour)) := by
  refine ⟨?_, fun hW => (moveTiles_inv g d hW).2.2.2 hp, ?_⟩
  · intro line hline v hv hv0
    rw [processLine_row_eq] at hv
    rcases List.mem_append.mp hv with hv | hv
    · rcases mergePass_mem _ v hv with hmem | ⟨x, hx, rfl⟩
      · exact hline v (List.mem_of_mem_filter hmem) hv0
      · obtain ⟨k, hk1, hk2⟩ := hline x (List.mem_of_mem_filter hx)
          (by simpa using List.of_mem_filter hx)
        exact ⟨k + 1, by omega, by rw [hk2, pow_succ]⟩
    · exact absurd (List.eq_of_mem_replicate hv) hv0
  · intro pick isFour
    unfold addRandomTile
    by_cases he : (emptyCellsList g).isEmpty
    · rw [if_pos he]
      exact hp
    · rw [if_neg he]
      intro v hv hv0
      rcases mem_flatten_setCell hv with rfl | hv1
      · cases isFour with
        | true => exact ⟨2, by omega, rfl⟩
        | false => exact ⟨1, by omega, rfl⟩
      · exact hp v hv1 hv0

/-- C9, witnessed at a concrete power-of-two grid. -/
theorem c9_power_of_two_invariant_witness :
    PowTwoGrid (moveTiles [[2, 4, 0, 0], [0, 0, 0, 0], [0, 0, 0, 0], [0, 0, 0, 0]]
      Dir.left).g ∧
    PowTwoGrid (addRandomTile [[2, 4, 0, 0], [0, 0, 0, 0], [0, 0, 0, 0], [0, 0, 0, 0]]
      0 false) :=
  have hp : PowTwoGrid [[2, 4, 0, 0], [0, 0, 0, 0], [0, 0, 0, 0], [0, 0, 0, 0]] := by
    intro v hv hv0
    simp only [List.flatten, List.mem_append, List.mem_cons, List.not_mem_nil,
      or_false] at hv
    rcases hv with h | h
    · rcases h with rfl | rfl | rfl | rfl
      · exact ⟨1, le_refl 1, rfl⟩
      · exact ⟨2, by omega, rfl⟩
      · exact absurd rfl hv0
      · exact absurd rfl hv0
    · exact absurd (by simpa using h) hv0
  ⟨(c9_power_of_two_invariant [[2, 4, 0, 0], [0, 0, 0, 0], [0, 0, 0, 0],
      [0, 0, 0, 0]] Dir.left hp).2.1 (by constructor <;> decide),
   (c9_power_of_two_invariant [[2, 4, 0, 0], [0, 0, 0, 0], [0, 0, 0, 0],
      [0, 0, 0, 0]] Dir.left hp).2.2 0 false⟩

/-! Claim C10. -/

/-- C10: on a well-formed grid with a tile, a tile-by-tile move that
reports `moved = true` leaves at least one empty cell; hence the post-move
spawn's empty-cell list is non-empty, and a CHANCE node on the post-move
grid has a positive spawn count, so it takes the division branch rather
than the `possibleSpawns = 0` fallback that returns 0. -/
theorem c10_post_move_spawn_safe (g : Grid) (d : Dir) (hW : WellFormed g)
    (hnz : ∃ v ∈ g.flatten, v ≠ 0) (hm : (moveTiles g d).moved = true) :
    0 ∈ (moveTiles g d).g.flatten ∧
    emptyCellsList (moveTiles g d).g ≠ [] ∧
    ∀ depth : Nat, expectimax (moveTiles g d).g (depth + 1) false =
      (WithBot.map (fun t => t / ((emptyCellsList (moveTiles g d).g).length : ℚ))
        (((emptyCellsList (moveTiles g d).g).map
          (chanceMix (moveTiles g d).g depth)).sum), none) := by
  obtain ⟨hW', _, hzero, _⟩ := moveTiles_inv g d hW
  have h0 : 0 ∈ (moveTiles g d).g.flatten := hzero hm
  have hex : ∃ i, i < 4 ∧ ∃ j, j < 4 ∧ getCell (moveTiles g d).g i j = 0 := by
    obtain ⟨row, hrow, hcell⟩ := List.mem_flatten.mp h0
    obtain ⟨i, hi, hgi⟩ := (mem_iff_getD ([] : List Nat)).mp hrow
    obtain ⟨j, hj, hrj⟩ := (mem_iff_getD (0 : Nat)).mp hcell
    refine ⟨i, by rw [hW'.1] at hi; exact hi, j, ?_, ?_⟩
    · rw [hW'.2 row hrow] at hj
      exact hj
    · show ((moveTiles g d).g.getD i []).getD j 0 = 0
      rw [hgi, hrj]
  have hne := emptyCellsList_ne_nil_iff.mpr hex
  exact ⟨h0, hne, fun depth => chanceNode_eq _ depth hne⟩

/-- C10, witnessed at the grid [[2,0,0,0],0,0,0] moved RIGHT with a depth-1
CHANCE node. -/
theorem c10_post_move_spawn_safe_witness :
    0 ∈ (moveTiles [[2, 0, 0, 0], [0, 0, 0, 0], [0, 0, 0, 0], [0, 0, 0, 0]]
      Dir.right).g.flatten ∧
    emptyCellsList (moveTiles [[2, 0, 0, 0], [0, 0, 0, 0], [0, 0, 0, 0], [0, 0, 0, 0]]
      Dir.right).g ≠ [] ∧
    expectimax (moveTiles [[2, 0, 0, 0], [0, 0, 0, 0], [0, 0, 0, 0], [0, 0, 0, 0]]
        Dir.right).g 1 false =
      (WithBot.map (fun t => t /
          ((emptyCellsList (moveTiles [[2, 0, 0, 0], [0, 0, 0, 0], [0, 0, 0, 0],
            [0, 0, 0, 0]] Dir.right).g).length : ℚ))
        (((emptyCellsList (moveTiles [[2, 0, 0, 0], [0, 0, 0, 0], [0, 0, 0, 0],
            [0, 0, 0, 0]] Dir.right).g).map
          (chanceMix (moveTiles [[2, 0, 0, 0], [0, 0, 0, 0], [0, 0, 0, 0],
            [0, 0, 0, 0]] Dir.right).g 0)).sum), none) :=
  have h := c10_post_move_spawn_safe [[2, 0, 0, 0], [0, 0, 0, 0], [0, 0, 0, 0],
    [0, 0, 0, 0]] Dir.right (by constructor <;> decide) (by decide) (by decide)
  ⟨h.1, h.2.1, h.2.2 0⟩


end App
